import Mathlib

/-!
Verification of the envsubst template parser (src/envsubst/parse/parse.go).

The parser source is embedded faithfully below.  The scanner, the node
constructors and the expansion engine are not part of the provided sources
(only `parse.go` is); they are modelled from the specification, as marked
on each such definition.
-/

set_option linter.unusedVariables false

namespace envsubst

/-- Parse-time error kinds, from the package-level error variables of
src/envsubst/parse/parse.go. -/
inductive Err where
| badSubstitution
| missingClosingBrace
| parseVariableName
| parseFuncSubstitution
| parseDefaultFunction
deriving DecidableEq, Repr

/-- ErrBadSubstitution represents a substitution parsing error. -/
def ErrBadSubstitution : Err := Err.badSubstitution

/-- ErrMissingClosingBrace represents a missing closing brace error. -/
def ErrMissingClosingBrace : Err := Err.missingClosingBrace

/-- ErrParseVariableName represents the error when unable to parse a variable
name within a substitution. -/
def ErrParseVariableName : Err := Err.parseVariableName

/-- ErrParseFuncSubstitution represents the error when unable to parse the
substitution within a function parameter. -/
def ErrParseFuncSubstitution : Err := Err.parseFuncSubstitution

/-- ErrParseDefaultFunction represents the error when unable to parse a
default function. -/
def ErrParseDefaultFunction : Err := Err.parseDefaultFunction

/-- Modelled from the spec: the token kinds produced by the scanner
(scan.go is not under src).  The spec lists `Ident`, `Lbrack`, `Rbrack`
and `EOF`; a fifth outcome is required for a character that fits no legal
token kind, since the parser's `default` switch branches (for example the
one producing `ErrParseVariableName`) must be reachable. -/
inductive Token where
| tokenIdent
| tokenLbrack
| tokenRbrack
| tokenEOF
| tokenIllegal
deriving DecidableEq, Repr

/-- Modelled from the spec: the node sum type of node.go (not under src).
`text` is a literal run, `list` an ordered concatenation, `func` a
substitution with operator tag `name`, variable `param` and argument
sub-trees.  `empty` is the zero-length sentinel node used for an exhausted
parse; it is a distinguished value, mirroring the sentinel pointer of the
source.  `nil` models a Go `Node` interface holding nil, which is what the
error returns `return nil, err` of parse.go hand back. -/
inductive Node where
| text (value : String)
| list (left right : Node)
| func (name : String) (param : String) (args : List Node)
| empty
| nil
deriving Repr

/-- Whether a node is the distinguished empty sentinel; this models the
source's pointer comparison `right == empty` against the sentinel, which
only the sentinel itself satisfies. -/
def Node.isEmpty : Node → Bool
| .empty => true
| _ => false

/-- Modelled from the spec: `newTextNode` of node.go. -/
def newTextNode (value : String) : Node := Node.text value

/-- Modelled from the spec: `newListNode` of node.go, ordered concatenation. -/
def newListNode (left right : Node) : Node := Node.list left right

/-- Modelled from the spec: `newFuncNode` of node.go; a bare substitution
holding only the variable name, with no operator tag and no arguments. -/
def newFuncNode (name : String) : Node := Node.func "" name []

/-- Mode bit: an identifier run may be scanned. -/
def scanIdent : Nat := 1

/-- Mode bit: an opening `${` may be scanned. -/
def scanLbrack : Nat := 2

/-- Mode bit: a closing `}` may be scanned. -/
def scanRbrack : Nat := 4

/-- Mode bit: backslash escape sequences are recognised. -/
def scanEscape : Nat := 8

/-- Modelled from the spec: escape set used outside substitutions — only
`$` may be escaped in literal text. -/
def dollar : List Char := ['$']

/-- Modelled from the spec: escape set enabled inside a substitution — all
special characters of the grammar may be escaped. -/
def escapeAll : List Char :=
  ['\\', '$', '\x7b', '\x7d', ':', '-', '=', '?', '+', '/', '#', '%', '^', ',']

/-- Modelled from the spec: the scanner state (scan.go is not under src).
It is a lexical cursor over the input with a caller-set acceptance
predicate, mode bitmask and escape-character set; `start` marks the
beginning of the current token, `width` the width of the last read rune
(0 at end of input), so that `unread` can step back. -/
structure Scanner where
  buf : List Char
  pos : Nat
  start : Nat
  width : Nat
  accept : Char → Nat → Bool
  mode : Nat
  escapeChars : List Char

/-- Modelled from the spec: `read` consumes and returns the next rune, or
none at the end of the buffer (the cursor advances only here). -/
def readChar (s : Scanner) : Option Char × Scanner :=
  match s.buf[s.pos]? with
  | some c => (some c, { s with pos := s.pos + 1, width := 1 })
  | none => (none, { s with width := 0 })

/-- Modelled from the spec: `peek` returns the next rune without advancing
the cursor. -/
def peekChar (s : Scanner) : Option Char := s.buf[s.pos]?

/-- Modelled from the spec: `unread` undoes the last `read`. -/
def unread (s : Scanner) : Scanner := { s with pos := s.pos - s.width }

/-- Modelled from the spec: the string accessor returning the text covered
by the most recently scanned token. -/
def strVal (s : Scanner) : String :=
  String.mk ((s.buf.drop s.start).take (s.pos - s.start))

/-- Modelled from the spec: whether the rune after a backslash belongs to
the current escape-character set. -/
def isEscapable (s : Scanner) : Bool :=
  match peekChar s with
  | some c => s.escapeChars.contains c
  | none => false

/-- Modelled from the spec: the identifier-scanning loop.  After an
accepted first rune, it keeps consuming runes while the acceptance
predicate holds, stopping (without consuming) at end of input, at an
opening `${` when `scanLbrack` mode is on, at an escape pair boundary
handled by consuming both runes, or at the first rejected rune.  The fuel
argument is an upper bound on the runes still to consume; callers pass the
buffer length, which always suffices. -/
def scanIdentAux : Nat → Scanner → Scanner
| 0, s => s
| fuel+1, s =>
  match readChar s with
  | (none, s1) => s1
  | (some r, s1) =>
    if ((s1.mode &&& scanLbrack) != 0) && (r == '$') && (peekChar s1 == some '\x7b') then
      unread s1
    else if ((s1.mode &&& scanEscape) != 0) && (r == '\\') && isEscapable s1 then
      scanIdentAux fuel (readChar s1).2
    else if s1.accept r (s1.pos - s1.start) then
      scanIdentAux fuel s1
    else
      unread s1

/-- Modelled from the spec: `scan` reads the next token.  It tries, in
order and each gated by its mode bit: the opening `${`, the closing `}`,
and an identifier run under the acceptance predicate (with escape pairs
when enabled); otherwise the unexpected character yields an illegal token
for the parser to map to an error. -/
def scan (s0 : Scanner) : Token × Scanner :=
  let s := { s0 with start := s0.pos }
  match readChar s with
  | (none, s1) => (Token.tokenEOF, s1)
  | (some r, s1) =>
    if ((s1.mode &&& scanLbrack) != 0) && (r == '$') && (peekChar s1 == some '\x7b') then
      (Token.tokenLbrack, (readChar s1).2)
    else if ((s1.mode &&& scanRbrack) != 0) && (r == '\x7d') then
      (Token.tokenRbrack, s1)
    else if (s1.mode &&& scanIdent) != 0 then
      if ((s1.mode &&& scanEscape) != 0) && (r == '\\') && isEscapable s1 then
        (Token.tokenIdent, scanIdentAux s1.buf.length (readChar s1).2)
      else if s1.accept r (s1.pos - s1.start) then
        (Token.tokenIdent, scanIdentAux s1.buf.length s1)
      else (Token.tokenIllegal, s1)
    else (Token.tokenIllegal, s1)

/-- Modelled from the spec: acceptance predicate admitting any rune. -/
def acceptRune (r : Char) (i : Nat) : Bool := true

/-- Modelled from the spec: acceptance predicate for variable identifiers,
letters, digits and underscore. -/
def acceptIdent (r : Char) (i : Nat) : Bool := r.isAlpha || r.isDigit || r == '_'

/-- Modelled from the spec: accepts a single `#`, as in the length form. -/
def acceptOneHash (r : Char) (i : Nat) : Bool := (r == '#') && (i == 1)

/-- Modelled from the spec: accepts a colon delimiter. -/
def acceptColon (r : Char) (i : Nat) : Bool := r == ':'

/-- Modelled from the spec: accepts a single leading colon. -/
def acceptOneColon (r : Char) (i : Nat) : Bool := (r == ':') && (i == 1)

/-- Modelled from the spec: accepts any rune other than `:` and `}`; used
for the offset of a substring form. -/
def rejectColonClose (r : Char) (i : Nat) : Bool := (r != ':') && (r != '\x7d')

/-- Modelled from the spec: accepts any rune other than the closing brace. -/
def acceptNotClosing (r : Char) (i : Nat) : Bool := r != '\x7d'

/-- Modelled from the spec: accepts the `#` or doubled `##` trim operator. -/
def acceptHashFunc (r : Char) (i : Nat) : Bool := (r == '#') && (i < 3)

/-- Modelled from the spec: accepts the `%` or doubled `%%` trim operator. -/
def acceptPercentFunc (r : Char) (i : Nat) : Bool := (r == '%') && (i < 3)

/-- Modelled from the spec: accepts the two-rune default operators `:-`,
`:=`, `:?`, `:+`. -/
def acceptDefaultFunc (r : Char) (i : Nat) : Bool :=
  ((i == 1) && (r == ':')) ||
  ((i == 2) && ((r == '=') || (r == '-') || (r == '?') || (r == '+')))

/-- Modelled from the spec: accepts the single `=` assignment operator. -/
def acceptOneEqual (r : Char) (i : Nat) : Bool := (r == '=') && (i == 1)

/-- Modelled from the spec: accepts the replace operators `/`, `//`, `/#`,
`/%`. -/
def acceptReplaceFunc (r : Char) (i : Nat) : Bool :=
  ((i == 1) && (r == '/')) ||
  ((i == 2) && ((r == '/') || (r == '#') || (r == '%')))

/-- Modelled from the spec: accepts the case operators `,`, `,,`, `^`,
`^^`. -/
def acceptCasingFunc (r : Char) (i : Nat) : Bool :=
  ((r == ',') || (r == '^')) && (i < 3)

/-- Modelled from the spec: accepts a slash delimiter. -/
def acceptSlash (r : Char) (i : Nat) : Bool := r == '/'

/-- Modelled from the spec: accepts any rune other than a slash; used for
the pattern of a replace form. -/
def acceptNotSlash (r : Char) (i : Nat) : Bool := r != '/'

/-- Result of one parse production, mirroring the Go pair
`(Node, error)` together with the scanner state it left behind.  A Go
`return nil, err` becomes a `Node.nil` node with the error set; note the
productions ending in `return node, t.consumeRbrack()` can carry both a
node and an error. -/
structure Res where
  node : Node
  err : Option Err
  s : Scanner

/-- consumeRbrack consumes a right closing bracket; its absence is
`ErrBadSubstitution` (parse.go). -/
def consumeRbrack (s : Scanner) : Option Err × Scanner :=
  let s1 := { s with mode := scanRbrack }
  match scan s1 with
  | (Token.tokenRbrack, s2) => (none, s2)
  | (_, s2) => (some ErrBadSubstitution, s2)

/-- The family of parse productions at one recursion depth.  Each field is
the faithful translation of the corresponding function of parse.go (one
production per function); the record is indexed by fuel below so that a
production at depth `n+1` calls the productions at depth `n`, which models
the mutual recursion of the source.  `any` is parseAny, `func` is
parseFunc, `param` is parseParam, `dos` is parseDefaultOrSubstr, `substr`
is parseSubstrFunc, `remove` is parseRemoveFunc, `replace` is
parseReplaceFunc, `dflt` is parseDefaultFunc, `loop` is the argument loop
inside parseDefaultFunc, `casing` is parseCasingFunc and `len` is
parseLenFunc. -/
structure ParserPack where
  any : Scanner → Option Res
  func : Scanner → Option Res
  param : (Char → Nat → Bool) → Nat → Scanner → Option Res
  dos : String → Scanner → Option Res
  substr : String → Scanner → Option Res
  remove : String → (Char → Nat → Bool) → Scanner → Option Res
  replace : String → Scanner → Option Res
  dflt : String → Scanner → Option Res
  loop : String → String → List Node → Scanner → Option Res
  casing : String → Scanner → Option Res
  len : Scanner → Option Res

/-- The exhausted pack: with no fuel left every production returns none,
which marks that the recursion bound was hit. -/
def packZero : ParserPack :=
  ⟨fun _ => none, fun _ => none, fun _ _ _ => none, fun _ _ => none, fun _ _ => none,
   fun _ _ _ => none, fun _ _ => none, fun _ _ => none, fun _ _ _ _ => none,
   fun _ _ => none, fun _ => none⟩

/-- One layer of the recursive-descent parser of parse.go; each field body
is the line-by-line translation of the corresponding Go function, with the
recursive calls taken from the previous layer `p`. -/
def packStep (p : ParserPack) : ParserPack where
  any := fun s0 =>
    let s := { s0 with accept := acceptRune,
                       mode := scanIdent ||| scanLbrack ||| scanEscape,
                       escapeChars := dollar }
    match scan s with
    | (Token.tokenIdent, s1) =>
      let left := newTextNode (strVal s1)
      match p.any s1 with
      | none => none
      | some r =>
        if r.err.isSome then some ⟨Node.nil, r.err, r.s⟩
        else if r.node.isEmpty then some ⟨left, none, r.s⟩
        else some ⟨newListNode left r.node, none, r.s⟩
    | (Token.tokenEOF, s1) => some ⟨Node.empty, none, s1⟩
    | (Token.tokenLbrack, s1) =>
      match p.func s1 with
      | none => none
      | some rf =>
        if rf.err.isSome then some ⟨Node.nil, rf.err, rf.s⟩
        else
          match p.any rf.s with
          | none => none
          | some r =>
            if r.err.isSome then some ⟨Node.nil, r.err, r.s⟩
            else if r.node.isEmpty then some ⟨rf.node, none, r.s⟩
            else some ⟨newListNode rf.node r.node, none, r.s⟩
    | (_, s1) => some ⟨Node.nil, some ErrBadSubstitution, s1⟩
  func := fun s0 =>
    let s := { s0 with escapeChars := escapeAll }
    if peekChar s == some '#' then p.len s
    else
      let s2 := { s with accept := acceptIdent, mode := scanIdent }
      match scan s2 with
      | (Token.tokenIdent, s1) =>
        let name := strVal s1
        let pk := peekChar s1
        if pk == some ':' then p.dos name s1
        else if pk == some '=' then p.dflt name s1
        else if (pk == some ',') || (pk == some '^') then p.casing name s1
        else if pk == some '/' then p.replace name s1
        else if pk == some '#' then p.remove name acceptHashFunc s1
        else if pk == some '%' then p.remove name acceptPercentFunc s1
        else
          let s3 := { s1 with accept := acceptIdent, mode := scanRbrack }
          match scan s3 with
          | (Token.tokenRbrack, s4) => some ⟨newFuncNode name, none, s4⟩
          | (_, s4) => some ⟨Node.nil, some ErrMissingClosingBrace, s4⟩
      | (_, s1) => some ⟨Node.nil, some ErrParseVariableName, s1⟩
  param := fun accept mode s0 =>
    let s := { s0 with accept := accept, mode := mode ||| scanLbrack }
    match scan s with
    | (Token.tokenLbrack, s1) => p.func s1
    | (Token.tokenIdent, s1) => some ⟨newTextNode (strVal s1), none, s1⟩
    | (Token.tokenRbrack, s1) => some ⟨newTextNode (strVal s1), none, s1⟩
    | (_, s1) => some ⟨Node.nil, some ErrParseFuncSubstitution, s1⟩
  dos := fun name s =>
    let s1 := (readChar s).2
    let r := peekChar s1
    let s2 := unread s1
    if (r == some '=') || (r == some '-') || (r == some '?') || (r == some '+') then
      p.dflt name s2
    else
      p.substr name s2
  substr := fun name s0 =>
    let s := { s0 with accept := acceptOneColon, mode := scanIdent }
    match scan s with
    | (Token.tokenIdent, s1) =>
      let fname := strVal s1
      match p.param rejectColonClose scanIdent s1 with
      | none => none
      | some r1 =>
        if r1.err.isSome then some ⟨Node.nil, r1.err, r1.s⟩
        else
          let s2 := { r1.s with accept := acceptColon, mode := scanIdent ||| scanRbrack }
          match scan s2 with
          | (Token.tokenRbrack, s3) => some ⟨Node.func fname name [r1.node], none, s3⟩
          | (Token.tokenIdent, s3) =>
            match p.param acceptNotClosing scanIdent s3 with
            | none => none
            | some r2 =>
              if r2.err.isSome then some ⟨Node.nil, r2.err, r2.s⟩
              else
                let e := consumeRbrack r2.s
                some ⟨Node.func fname name [r1.node, r2.node], e.1, e.2⟩
          | (_, s3) => some ⟨Node.nil, some ErrBadSubstitution, s3⟩
    | (_, s1) => some ⟨Node.nil, some ErrBadSubstitution, s1⟩
  remove := fun name accept s0 =>
    let s := { s0 with accept := accept, mode := scanIdent }
    match scan s with
    | (Token.tokenIdent, s1) =>
      let fname := strVal s1
      match p.param acceptNotClosing scanIdent s1 with
      | none => none
      | some r1 =>
        if r1.err.isSome then some ⟨Node.nil, r1.err, r1.s⟩
        else
          let e := consumeRbrack r1.s
          some ⟨Node.func fname name [r1.node], e.1, e.2⟩
    | (_, s1) => some ⟨Node.nil, some ErrBadSubstitution, s1⟩
  replace := fun name s0 =>
    let s := { s0 with accept := acceptReplaceFunc, mode := scanIdent }
    match scan s with
    | (Token.tokenIdent, s1) =>
      let fname := strVal s1
      match p.param acceptNotSlash (scanIdent ||| scanEscape) s1 with
      | none => none
      | some r1 =>
        if r1.err.isSome then some ⟨Node.nil, r1.err, r1.s⟩
        else
          let s2 := { r1.s with accept := acceptSlash, mode := scanIdent }
          match scan s2 with
          | (Token.tokenIdent, s3) =>
            if peekChar s3 == some '\x7d' then
              let e := consumeRbrack s3
              some ⟨Node.func fname name [r1.node], e.1, e.2⟩
            else
              match p.param acceptNotClosing (scanIdent ||| scanEscape) s3 with
              | none => none
              | some r2 =>
                if r2.err.isSome then some ⟨Node.nil, r2.err, r2.s⟩
                else
                  let e := consumeRbrack r2.s
                  some ⟨Node.func fname name [r1.node, r2.node], e.1, e.2⟩
          | (_, s3) => some ⟨Node.nil, some ErrBadSubstitution, s3⟩
    | (_, s1) => some ⟨Node.nil, some ErrBadSubstitution, s1⟩
  dflt := fun name s0 =>
    let acc := if peekChar s0 == some '=' then acceptOneEqual else acceptDefaultFunc
    let s := { s0 with accept := acc, mode := scanIdent }
    match scan s with
    | (Token.tokenIdent, s1) => p.loop (strVal s1) name [] s1
    | (_, s1) => some ⟨Node.nil, some ErrParseDefaultFunction, s1⟩
  loop := fun fname name args s =>
    if peekChar s == some '\x7d' then
      let e := consumeRbrack s
      some ⟨Node.func fname name args, e.1, e.2⟩
    else
      match p.param acceptNotClosing scanIdent s with
      | none => none
      | some r =>
        if r.err.isSome then some ⟨Node.nil, r.err, r.s⟩
        else p.loop fname name (args ++ [r.node]) r.s
  casing := fun name s0 =>
    let s := { s0 with accept := acceptCasingFunc, mode := scanIdent }
    match scan s with
    | (Token.tokenIdent, s1) =>
      let e := consumeRbrack s1
      some ⟨Node.func (strVal s1) name [], e.1, e.2⟩
    | (_, s1) => some ⟨Node.nil, some ErrBadSubstitution, s1⟩
  len := fun s0 =>
    let s := { s0 with accept := acceptOneHash, mode := scanIdent }
    match scan s with
    | (Token.tokenIdent, s1) =>
      let fname := strVal s1
      let s2 := { s1 with accept := acceptIdent, mode := scanIdent }
      match scan s2 with
      | (Token.tokenIdent, s3) =>
        let e := consumeRbrack s3
        some ⟨Node.func fname (strVal s3) [], e.1, e.2⟩
      | (_, s3) => some ⟨Node.nil, some ErrBadSubstitution, s3⟩
    | (_, s1) => some ⟨Node.nil, some ErrBadSubstitution, s1⟩

/-- The parser at a given recursion depth, built by plain recursion on the
fuel. -/
def parsersAt : Nat → ParserPack := fun n => Nat.rec packZero (fun _ ih => packStep ih) n

/-- parseAny of parse.go: the top level, alternating literal runs and
substitutions; none means the fuel ran out. -/
def parseAny (fuel : Nat) (s : Scanner) : Option Res := (parsersAt fuel).any s

/-- parseFunc of parse.go: called just after the opening brace; enables
full escaping, handles the length form, scans the variable name and
dispatches on the next unconsumed character. -/
def parseFunc (fuel : Nat) (s : Scanner) : Option Res := (parsersAt fuel).func s

/-- parseParam of parse.go: reads one substitution function argument under
a caller-chosen acceptance predicate and mode, recursing into parseFunc
when the argument opens a nested substitution. -/
def parseParam (fuel : Nat) (accept : Char → Nat → Bool) (mode : Nat) (s : Scanner) :
    Option Res := (parsersAt fuel).param accept mode s

/-- parseDefaultOrSubstr of parse.go: after seeing the colon, reads it,
peeks one rune and unreads, then picks the default family on `=`, `-`,
`?`, `+` and the substring family otherwise. -/
def parseDefaultOrSubstr (fuel : Nat) (name : String) (s : Scanner) : Option Res :=
  (parsersAt fuel).dos name s

/-- parseSubstrFunc of parse.go: the offset and offset-length substring
forms. -/
def parseSubstrFunc (fuel : Nat) (name : String) (s : Scanner) : Option Res :=
  (parsersAt fuel).substr name s

/-- parseRemoveFunc of parse.go: the single and doubled trim forms; the
operator predicate is passed by the caller. -/
def parseRemoveFunc (fuel : Nat) (name : String) (accept : Char → Nat → Bool)
    (s : Scanner) : Option Res := (parsersAt fuel).remove name accept s

/-- parseReplaceFunc of parse.go: the replace family; the pattern stops at
an unescaped slash, the slash delimiter is required, and the replacement
is omitted when the closing brace follows at once. -/
def parseReplaceFunc (fuel : Nat) (name : String) (s : Scanner) : Option Res :=
  (parsersAt fuel).replace name s

/-- parseDefaultFunc of parse.go: the default, assign, error and
alternative forms; scans the operator then collects word fragments until
the closing brace. -/
def parseDefaultFunc (fuel : Nat) (name : String) (s : Scanner) : Option Res :=
  (parsersAt fuel).dflt name s

/-- The argument loop of parseDefaultFunc: while the next rune is not the
closing brace, parse one more word-fragment argument and append it. -/
def parseDefaultLoop (fuel : Nat) (fname name : String) (args : List Node)
    (s : Scanner) : Option Res := (parsersAt fuel).loop fname name args s

/-- parseCasingFunc of parse.go: the case-conversion forms; no arguments,
then the closing brace. -/
def parseCasingFunc (fuel : Nat) (name : String) (s : Scanner) : Option Res :=
  (parsersAt fuel).casing name s

/-- parseLenFunc of parse.go: the length form; scans the hash, then the
variable name, then the closing brace. -/
def parseLenFunc (fuel : Nat) (s : Scanner) : Option Res := (parsersAt fuel).len s

/-- Tree is the representation of a single parsed template (parse.go);
only the root node survives a parse, the scanner state is transient. -/
structure Tree where
  Root : Node
deriving Repr

/-- A fresh scanner bound to the given template text, as allocated by
`Parse` in parse.go. -/
def initScanner (buf : String) : Scanner :=
  ⟨buf.data, 0, 0, 0, fun _ _ => false, 0, []⟩

/-- Parse of parse.go: parses the string and returns the tree together
with the error value, mirroring the Go multiple return `(*Tree, error)`;
`none` means the fuel ran out. -/
def Parse (fuel : Nat) (buf : String) : Option (Tree × Option Err) :=
  (parseAny fuel (initScanner buf)).map (fun r => (⟨r.node⟩, r.err))

/-- The error component of a Parse result. -/
def ParseErr (fuel : Nat) (buf : String) : Option (Option Err) :=
  (Parse fuel buf).map Prod.snd

/-- The root node of a Parse result. -/
def ParseRoot (fuel : Nat) (buf : String) : Option Node :=
  (Parse fuel buf).map (fun p => p.1.Root)

/-- Modelled from the spec: glob-style pattern matching against a whole
string, with `*` matching any run and `?` any single rune, used by the
trim and replace operator semantics of the expansion engine (eval code is
not under src). -/
def matchGlob : List Char → List Char → Bool
| [], [] => true
| [], _ :: _ => false
| '*' :: ps, [] => matchGlob ps []
| '*' :: ps, c :: ss => matchGlob ps (c :: ss) || matchGlob ('*' :: ps) ss
| '?' :: ps, _ :: ss => matchGlob ps ss
| '?' :: _, [] => false
| p :: ps, c :: ss => (p == c) && matchGlob ps ss
| _ :: _, [] => false
termination_by p s => (p.length, s.length)

/-- The lengths of the beginnings of `v` matched by the glob pattern,
in increasing order. -/
def startMatches (v p : String) : List Nat :=
  (List.range (v.length + 1)).filter (fun k => matchGlob p.data (v.data.take k))

/-- The split points in `v` whose tails are matched by the glob pattern,
in increasing order. -/
def endMatches (v p : String) : List Nat :=
  (List.range (v.length + 1)).filter (fun k => matchGlob p.data (v.data.drop k))

/-- Modelled from the spec: remove the shortest leading part of `v`
matching the glob pattern, leaving `v` unchanged when nothing matches. -/
def cutShortStart (v p : String) : String :=
  match (startMatches v p).head? with
  | some k => String.mk (v.data.drop k)
  | none => v

/-- Modelled from the spec: remove the longest leading part of `v`
matching the glob pattern. -/
def cutLongStart (v p : String) : String :=
  match (startMatches v p).getLast? with
  | some k => String.mk (v.data.drop k)
  | none => v

/-- Modelled from the spec: remove the shortest trailing part of `v`
matching the glob pattern. -/
def cutShortEnd (v p : String) : String :=
  match (endMatches v p).getLast? with
  | some k => String.mk (v.data.take k)
  | none => v

/-- Modelled from the spec: remove the longest trailing part of `v`
matching the glob pattern. -/
def cutLongEnd (v p : String) : String :=
  match (endMatches v p).head? with
  | some k => String.mk (v.data.take k)
  | none => v

/-- The longest length of a part of `s` starting at index `i` that the
glob pattern matches, when any. -/
def longestAt (p s : List Char) (i : Nat) : Option Nat :=
  ((List.range (s.length - i + 1)).filter
    (fun j => matchGlob p ((s.drop i).take j))).getLast?

/-- Modelled from the spec: replace the first (leftmost, then longest)
match of the glob pattern in `v` by the replacement, leaving `v`
unchanged when nothing matches. -/
def replFirst (v p repl : String) : String :=
  match (List.range (v.data.length + 1)).find? (fun i => (longestAt p.data v.data i).isSome) with
  | some i =>
    let j := (longestAt p.data v.data i).getD 0
    String.mk (v.data.take i ++ repl.data ++ v.data.drop (i + j))
  | none => v

/-- Replace every non-overlapping, non-empty match of the glob pattern,
scanning from the left; the fuel is the number of runes still to scan. -/
def replAllAux (p repl : List Char) : Nat → List Char → List Char
| 0, s => s
| fuel+1, s =>
  match longestAt p s 0 with
  | some (j+1) => repl ++ replAllAux p repl fuel (s.drop (j+1))
  | _ =>
    match s with
    | [] => []
    | c :: rest => c :: replAllAux p repl fuel rest

/-- Modelled from the spec: replace all matches of the glob pattern. -/
def replAll (v p repl : String) : String :=
  String.mk (replAllAux p.data repl.data v.data.length v.data)

/-- Modelled from the spec: replace a match anchored at the start of `v`
(the longest one), when any. -/
def replStart (v p repl : String) : String :=
  match longestAt p.data v.data 0 with
  | some j => String.mk (repl.data ++ v.data.drop j)
  | none => v

/-- Modelled from the spec: replace a match anchored at the end of `v`
(the longest one), when any. -/
def replEnd (v p repl : String) : String :=
  match (endMatches v p).head? with
  | some k => String.mk (v.data.take k ++ repl.data)
  | none => v

/-- Lowercase only the first rune. -/
def lowerFirst (v : String) : String :=
  match v.data with
  | [] => ""
  | c :: r => String.mk (c.toLower :: r)

/-- Uppercase only the first rune. -/
def upperFirst (v : String) : String :=
  match v.data with
  | [] => ""
  | c :: r => String.mk (c.toUpper :: r)

/-- Lowercase the whole value. -/
def lowerAll (v : String) : String := String.mk (v.data.map Char.toLower)

/-- Uppercase the whole value. -/
def upperAll (v : String) : String := String.mk (v.data.map Char.toUpper)

/-- Modelled from the spec: the substring operator; 0-based offset,
negative offsets count from the end, an omitted length means to the end,
and out-of-range offsets or lengths clamp to the empty result. -/
def substrEval (v off : String) (len? : Option String) : Except String String :=
  match off.toInt? with
  | none => Except.error "invalid offset"
  | some o =>
    let n := v.length
    let st : Int := if o < 0 then (n : Int) + o else o
    if st < 0 || st > (n : Int) then Except.ok ""
    else
      match len? with
      | none => Except.ok (String.mk (v.data.drop st.toNat))
      | some ls =>
        match ls.toInt? with
        | none => Except.error "invalid length"
        | some l =>
          if l < 0 then Except.ok ""
          else Except.ok (String.mk ((v.data.drop st.toNat).take l.toNat))

/-- Modelled from the spec: the runtime semantics of one substitution
operator, applied to the resolved value (or its absence) and the already
evaluated arguments (eval code is not under src).  Assignment via `:=` is
treated like `:-`, following the spec's stated choice for resolvers
without write-back. -/
def evalFunc (resolve : String → Option String) (name param : String)
    (args : List String) : Except String String :=
  let v := (resolve param).getD ""
  let word := String.join args
  if name == "" then Except.ok v
  else if name == "#" then
    match args with
    | [] => Except.ok (toString v.length)
    | p :: _ => Except.ok (cutShortStart v p)
  else if name == "##" then Except.ok (cutLongStart v (args.headD ""))
  else if name == "%" then Except.ok (cutShortEnd v (args.headD ""))
  else if name == "%%" then Except.ok (cutLongEnd v (args.headD ""))
  else if (name == ":-") || (name == "=") || (name == ":=") then
    (if v == "" then Except.ok word else Except.ok v)
  else if name == ":?" then (if v == "" then Except.error word else Except.ok v)
  else if name == ":+" then (if v == "" then Except.ok "" else Except.ok word)
  else if name == ":" then substrEval v (args.headD "0") args[1]?
  else if name == "," then Except.ok (lowerFirst v)
  else if name == ",," then Except.ok (lowerAll v)
  else if name == "^" then Except.ok (upperFirst v)
  else if name == "^^" then Except.ok (upperAll v)
  else if name == "/" then Except.ok (replFirst v (args.headD "") (args[1]?.getD ""))
  else if name == "//" then Except.ok (replAll v (args.headD "") (args[1]?.getD ""))
  else if name == "/#" then Except.ok (replStart v (args.headD "") (args[1]?.getD ""))
  else if name == "/%" then Except.ok (replEnd v (args.headD "") (args[1]?.getD ""))
  else Except.error "bad substitution"

mutual

/-- Modelled from the spec: the expansion engine's tree walk — literal
text verbatim, concatenation in order, and substitution functions through
the resolver; a `:?` failure or a malformed numeric argument aborts the
whole expansion (eval code is not under src).  A Go nil node, which no
successful parse produces, is an error. -/
def ExecuteNode (resolve : String → Option String) : Node → Except String String
| Node.text v => Except.ok v
| Node.empty => Except.ok ""
| Node.nil => Except.error "nil node"
| Node.list l r => do
  let a ← ExecuteNode resolve l
  let b ← ExecuteNode resolve r
  pure (a ++ b)
| Node.func name param args => do
  let vals ← ExecuteArgs resolve args
  evalFunc resolve name param vals

/-- Evaluates each argument sub-tree to a string, in order. -/
def ExecuteArgs (resolve : String → Option String) : List Node → Except String (List String)
| [] => Except.ok []
| a :: rest => do
  let x ← ExecuteNode resolve a
  let xs ← ExecuteArgs resolve rest
  pure (x :: xs)

end

/-- Execute expands a parsed tree against a resolver, per the spec's
`Tree.Execute(resolve)` interface. -/
def Execute (t : Tree) (resolve : String → Option String) : Except String String :=
  ExecuteNode resolve t.Root

/-- Whether the template text contains the substring that opens a
substitution. -/
def hasSub : List Char → Bool
| [] => false
| [_] => false
| a :: b :: rest => ((a == '$') && (b == '\x7b')) || hasSub (b :: rest)

/-- Whether a peeked rune selects the default-value family after a
colon. -/
def isDefaultLookahead (c : Option Char) : Bool :=
  (c == some '=') || (c == some '-') || (c == some '?') || (c == some '+')

mutual

/-- The tree invariant of C7: no List node carries the empty sentinel as
either child, recursively, including inside substitution arguments. -/
def goodNode : Node → Bool
| Node.text _ => true
| Node.list l r => (!l.isEmpty) && (!r.isEmpty) && goodNode l && goodNode r
| Node.func _ _ args => goodArgs args
| Node.empty => true
| Node.nil => true

/-- The invariant of C7 over an argument list. -/
def goodArgs : List Node → Bool
| [] => true
| a :: rest => goodNode a && goodArgs rest

end

/-- The concrete substring-parse result used by the C5 witness. -/
def substrWitnessRes : Res := (parseSubstrFunc (9+1) "VAR" (initScanner ":1\x7d")).get (by rfl)

/-- The concrete replace-parse result used by the C6 witness. -/
def replaceWitnessRes : Res := (parseReplaceFunc (9+1) "VAR" (initScanner "/a/b\x7d")).get (by rfl)

/-- The concrete default-function parse result on an unclosed nested
substitution, used by the C2 witness. -/
def missingWitnessRes : Res :=
  (parseDefaultFunc 30 "VAR" (initScanner ":-$\x7bX")).get (by rfl)

/-- The scanner state reached after parseParam's configured scan of a
lone closing brace, used by the C9 witness. -/
def rbrackWitnessState : Scanner :=
  (scan { initScanner "\x7d" with accept := acceptColon,
                                  mode := (scanIdent ||| scanRbrack) ||| scanLbrack }).2

/-- Unfolding equation: every production returns none when the fuel is
exhausted. -/
lemma parsers_zero (s : Scanner) (accept : Char → Nat → Bool) (mode : Nat)
    (name fname : String) (args : List Node) :
    parseAny 0 s = none ∧ parseFunc 0 s = none ∧ parseParam 0 accept mode s = none ∧
    parseDefaultOrSubstr 0 name s = none ∧ parseSubstrFunc 0 name s = none ∧
    parseRemoveFunc 0 name accept s = none ∧ parseReplaceFunc 0 name s = none ∧
    parseDefaultFunc 0 name s = none ∧ parseDefaultLoop 0 fname name args s = none ∧
    parseCasingFunc 0 name s = none ∧ parseLenFunc 0 s = none :=
  ⟨rfl, rfl, rfl, rfl, rfl, rfl, rfl, rfl, rfl, rfl, rfl⟩

/-- Unfolding equation of parseAny at positive fuel. -/
lemma parseAny_succ (fuel : Nat) (s0 : Scanner) :
    parseAny (fuel+1) s0 =
      (let s := { s0 with accept := acceptRune,
                          mode := scanIdent ||| scanLbrack ||| scanEscape,
                          escapeChars := dollar }
       match scan s with
       | (Token.tokenIdent, s1) =>
         let left := newTextNode (strVal s1)
         match parseAny fuel s1 with
         | none => none
         | some r =>
           if r.err.isSome then some ⟨Node.nil, r.err, r.s⟩
           else if r.node.isEmpty then some ⟨left, none, r.s⟩
           else some ⟨newListNode left r.node, none, r.s⟩
       | (Token.tokenEOF, s1) => some ⟨Node.empty, none, s1⟩
       | (Token.tokenLbrack, s1) =>
         match parseFunc fuel s1 with
         | none => none
         | some rf =>
           if rf.err.isSome then some ⟨Node.nil, rf.err, rf.s⟩
           else
             match parseAny fuel rf.s with
             | none => none
             | some r =>
               if r.err.isSome then some ⟨Node.nil, r.err, r.s⟩
               else if r.node.isEmpty then some ⟨rf.node, none, r.s⟩
               else some ⟨newListNode rf.node r.node, none, r.s⟩
       | (_, s1) => some ⟨Node.nil, some ErrBadSubstitution, s1⟩) := rfl

/-- Unfolding equation of parseFunc at positive fuel. -/
lemma parseFunc_succ (fuel : Nat) (s0 : Scanner) :
    parseFunc (fuel+1) s0 =
      (let s := { s0 with escapeChars := escapeAll }
       if peekChar s == some '#' then parseLenFunc fuel s
       else
         let s2 := { s with accept := acceptIdent, mode := scanIdent }
         match scan s2 with
         | (Token.tokenIdent, s1) =>
           let name := strVal s1
           let pk := peekChar s1
           if pk == some ':' then parseDefaultOrSubstr fuel name s1
           else if pk == some '=' then parseDefaultFunc fuel name s1
           else if (pk == some ',') || (pk == some '^') then parseCasingFunc fuel name s1
           else if pk == some '/' then parseReplaceFunc fuel name s1
           else if pk == some '#' then parseRemoveFunc fuel name acceptHashFunc s1
           else if pk == some '%' then parseRemoveFunc fuel name acceptPercentFunc s1
           else
             let s3 := { s1 with accept := acceptIdent, mode := scanRbrack }
             match scan s3 with
             | (Token.tokenRbrack, s4) => some ⟨newFuncNode name, none, s4⟩
             | (_, s4) => some ⟨Node.nil, some ErrMissingClosingBrace, s4⟩
         | (_, s1) => some ⟨Node.nil, some ErrParseVariableName, s1⟩) := rfl

/-- Unfolding equation of parseParam at positive fuel. -/
lemma parseParam_succ (fuel : Nat) (accept : Char → Nat → Bool) (mode : Nat)
    (s0 : Scanner) :
    parseParam (fuel+1) accept mode s0 =
      (let s := { s0 with accept := accept, mode := mode ||| scanLbrack }
       match scan s with
       | (Token.tokenLbrack, s1) => parseFunc fuel s1
       | (Token.tokenIdent, s1) => some ⟨newTextNode (strVal s1), none, s1⟩
       | (Token.tokenRbrack, s1) => some ⟨newTextNode (strVal s1), none, s1⟩
       | (_, s1) => some ⟨Node.nil, some ErrParseFuncSubstitution, s1⟩) := rfl

/-- Unfolding equation of parseDefaultOrSubstr at positive fuel. -/
lemma parseDefaultOrSubstr_succ (fuel : Nat) (name : String) (s : Scanner) :
    parseDefaultOrSubstr (fuel+1) name s =
      (let s1 := (readChar s).2
       let r := peekChar s1
       let s2 := unread s1
       if (r == some '=') || (r == some '-') || (r == some '?') || (r == some '+') then
         parseDefaultFunc fuel name s2
       else
         parseSubstrFunc fuel name s2) := rfl

/-- Unfolding equation of parseSubstrFunc at positive fuel. -/
lemma parseSubstrFunc_succ (fuel : Nat) (name : String) (s0 : Scanner) :
    parseSubstrFunc (fuel+1) name s0 =
      (let s := { s0 with accept := acceptOneColon, mode := scanIdent }
       match scan s with
       | (Token.tokenIdent, s1) =>
         let fname := strVal s1
         match parseParam fuel rejectColonClose scanIdent s1 with
         | none => none
         | some r1 =>
           if r1.err.isSome then some ⟨Node.nil, r1.err, r1.s⟩
           else
             let s2 := { r1.s with accept := acceptColon, mode := scanIdent ||| scanRbrack }
             match scan s2 with
             | (Token.tokenRbrack, s3) => some ⟨Node.func fname name [r1.node], none, s3⟩
             | (Token.tokenIdent, s3) =>
               match parseParam fuel acceptNotClosing scanIdent s3 with
               | none => none
               | some r2 =>
                 if r2.err.isSome then some ⟨Node.nil, r2.err, r2.s⟩
                 else
                   let e := consumeRbrack r2.s
                   some ⟨Node.func fname name [r1.node, r2.node], e.1, e.2⟩
             | (_, s3) => some ⟨Node.nil, some ErrBadSubstitution, s3⟩
       | (_, s1) => some ⟨Node.nil, some ErrBadSubstitution, s1⟩) := rfl

/-- Unfolding equation of parseRemoveFunc at positive fuel. -/
lemma parseRemoveFunc_succ (fuel : Nat) (name : String) (accept : Char → Nat → Bool)
    (s0 : Scanner) :
    parseRemoveFunc (fuel+1) name accept s0 =
      (let s := { s0 with accept := accept, mode := scanIdent }
       match scan s with
       | (Token.tokenIdent, s1) =>
         let fname := strVal s1
         match parseParam fuel acceptNotClosing scanIdent s1 with
         | none => none
         | some r1 =>
           if r1.err.isSome then some ⟨Node.nil, r1.err, r1.s⟩
           else
             let e := consumeRbrack r1.s
             some ⟨Node.func fname name [r1.node], e.1, e.2⟩
       | (_, s1) => some ⟨Node.nil, some ErrBadSubstitution, s1⟩) := rfl

/-- Unfolding equation of parseReplaceFunc at positive fuel. -/
lemma parseReplaceFunc_succ (fuel : Nat) (name : String) (s0 : Scanner) :
    parseReplaceFunc (fuel+1) name s0 =
      (let s := { s0 with accept := acceptReplaceFunc, mode := scanIdent }
       match scan s with
       | (Token.tokenIdent, s1) =>
         let fname := strVal s1
         match parseParam fuel acceptNotSlash (scanIdent ||| scanEscape) s1 with
         | none => none
         | some r1 =>
           if r1.err.isSome then some ⟨Node.nil, r1.err, r1.s⟩
           else
             let s2 := { r1.s with accept := acceptSlash, mode := scanIdent }
             match scan s2 with
             | (Token.tokenIdent, s3) =>
               if peekChar s3 == some '\x7d' then
                 let e := consumeRbrack s3
                 some ⟨Node.func fname name [r1.node], e.1, e.2⟩
               else
                 match parseParam fuel acceptNotClosing (scanIdent ||| scanEscape) s3 with
                 | none => none
                 | some r2 =>
                   if r2.err.isSome then some ⟨Node.nil, r2.err, r2.s⟩
                   else
                     let e := consumeRbrack r2.s
                     some ⟨Node.func fname name [r1.node, r2.node], e.1, e.2⟩
             | (_, s3) => some ⟨Node.nil, some ErrBadSubstitution, s3⟩
       | (_, s1) => some ⟨Node.nil, some ErrBadSubstitution, s1⟩) := rfl

/-- Unfolding equation of parseDefaultFunc at positive fuel. -/
lemma parseDefaultFunc_succ (fuel : Nat) (name : String) (s0 : Scanner) :
    parseDefaultFunc (fuel+1) name s0 =
      (let acc := if peekChar s0 == some '=' then acceptOneEqual else acceptDefaultFunc
       let s := { s0 with accept := acc, mode := scanIdent }
       match scan s with
       | (Token.tokenIdent, s1) => parseDefaultLoop fuel (strVal s1) name [] s1
       | (_, s1) => some ⟨Node.nil, some ErrParseDefaultFunction, s1⟩) := rfl

/-- Unfolding equation of the default-word argument loop at positive
fuel. -/
lemma parseDefaultLoop_succ (fuel : Nat) (fname name : String) (args : List Node)
    (s : Scanner) :
    parseDefaultLoop (fuel+1) fname name args s =
      (if peekChar s == some '\x7d' then
         let e := consumeRbrack s
         some ⟨Node.func fname name args, e.1, e.2⟩
       else
         match parseParam fuel acceptNotClosing scanIdent s with
         | none => none
         | some r =>
           if r.err.isSome then some ⟨Node.nil, r.err, r.s⟩
           else parseDefaultLoop fuel fname name (args ++ [r.node]) r.s) := rfl

/-- Unfolding equation of parseCasingFunc at positive fuel. -/
lemma parseCasingFunc_succ (fuel : Nat) (name : String) (s0 : Scanner) :
    parseCasingFunc (fuel+1) name s0 =
      (let s := { s0 with accept := acceptCasingFunc, mode := scanIdent }
       match scan s with
       | (Token.tokenIdent, s1) =>
         let e := consumeRbrack s1
         some ⟨Node.func (strVal s1) name [], e.1, e.2⟩
       | (_, s1) => some ⟨Node.nil, some ErrBadSubstitution, s1⟩) := rfl

/-- Unfolding equation of parseLenFunc at positive fuel. -/
lemma parseLenFunc_succ (fuel : Nat) (s0 : Scanner) :
    parseLenFunc (fuel+1) s0 =
      (let s := { s0 with accept := acceptOneHash, mode := scanIdent }
       match scan s with
       | (Token.tokenIdent, s1) =>
         let fname := strVal s1
         let s2 := { s1 with accept := acceptIdent, mode := scanIdent }
         match scan s2 with
         | (Token.tokenIdent, s3) =>
           let e := consumeRbrack s3
           some ⟨Node.func fname (strVal s3) [], e.1, e.2⟩
         | (_, s3) => some ⟨Node.nil, some ErrBadSubstitution, s3⟩
       | (_, s1) => some ⟨Node.nil, some ErrBadSubstitution, s1⟩) := rfl

/-- Helper for C1: whatever production parseAny takes, an error leaves
the node a Go nil. -/
lemma parseAny_err_nil : ∀ (fuel : Nat) (s : Scanner) (r : Res),
    parseAny fuel s = some r → r.err.isSome = true → r.node = Node.nil := by
  intro fuel s r h he
  match fuel with
  | 0 => rw [(parsers_zero s (fun _ _ => false) 0 "" "" []).1] at h; exact Option.noConfusion h
  | Nat.succ n =>
    simp only [parseAny_succ] at h
    repeat' split at h
    all_goals
      first
      | exact Option.noConfusion h
      | (injection h with h; subst h; rfl)
      | (injection h with h; subst h; exact absurd he (by simp))

/-- C1: when Parse reports an error, the tree handed back carries a nil
root: no partially built node structure is available to the caller. -/
theorem parse_error_yields_nil_root (fuel : Nat) (buf : String) (e : Err)
    (h : ParseErr fuel buf = some (some e)) : ParseRoot fuel buf = some Node.nil := by
  unfold ParseErr Parse at h
  unfold ParseRoot Parse
  rcases hp : parseAny fuel (initScanner buf) with _ | r
  · rw [hp] at h; simp at h
  · rw [hp] at h
    simp only [Option.map_some', Option.some.injEq] at h ⊢
    exact parseAny_err_nil fuel (initScanner buf) r hp (by rw [h]; rfl)

/-- Witness for C1 at the concrete failing input of the spec. -/
theorem parse_error_yields_nil_root_witness : ParseRoot 10 "$\x7b\x7d" = some Node.nil :=
  parse_error_yields_nil_root 10 "$\x7b\x7d" ErrParseVariableName rfl

/-- Counterexample for C2: an unclosed casing substitution fails with
ErrBadSubstitution, not with ErrMissingClosingBrace as the claim states
for all operator forms. -/
theorem unclosed_casing_not_missing_brace :
    ParseErr 20 "$\x7bVAR,," = some (some ErrBadSubstitution) ∧
    ((ParseErr 20 "$\x7bVAR,,") == some (some ErrMissingClosingBrace)) = false :=
  ⟨rfl, rfl⟩

/-- C3: the template with an unclosed plain substitution fails with
ErrMissingClosingBrace and the template with an empty variable name fails
with ErrParseVariableName. -/
theorem unclosed_and_nameless_specific_errors :
    ParseErr 20 "$\x7bVAR" = some (some ErrMissingClosingBrace) ∧
    ParseErr 20 "$\x7b\x7d" = some (some ErrParseVariableName) :=
  ⟨rfl, rfl⟩

/-- C4: after the colon, parseDefaultOrSubstr decides by exactly one rune
of lookahead without net consumption: the scanner state passed on differs
from the incoming one only in the transient width field, and the branch is
the default family exactly when the rune after the colon is one of
`=`, `-`, `?`, `+`, the substring family otherwise. -/
theorem parseDefaultOrSubstr_dispatch (fuel : Nat) (name : String) (s : Scanner)
    (h : peekChar s = some ':') :
    parseDefaultOrSubstr (fuel+1) name s =
      if isDefaultLookahead s.buf[s.pos + 1]? then
        parseDefaultFunc fuel name { s with width := 1 }
      else
        parseSubstrFunc fuel name { s with width := 1 } := by
  have hb : s.buf[s.pos]? = some ':' := h
  simp only [parseDefaultOrSubstr_succ, readChar, hb, peekChar, unread, isDefaultLookahead]
  have hpos : s.pos + 1 - 1 = s.pos := by omega
  rw [hpos]

/-- Witness for C4 at a concrete default-family input. -/
theorem parseDefaultOrSubstr_dispatch_witness :
    parseDefaultOrSubstr (4+1) "V" (initScanner ":-x\x7d") =
      parseDefaultFunc 4 "V" { initScanner ":-x\x7d" with width := 1 } := by
  rw [parseDefaultOrSubstr_dispatch 4 "V" (initScanner ":-x\x7d") rfl]
  rfl

/-- Counterexample for C9: a parseParam call whose scan yields the
open-brace token can still fail with ErrParseFuncSubstitution, because the
nested substitution parse propagates that error; so the error is not
confined to tokens outside open-brace, identifier and closing-brace. -/
theorem parseParam_err_with_lbrack_token :
    ((parseParam 20 acceptNotClosing scanIdent (initScanner "$\x7bVAR:-d")).map Res.err)
        = some (some ErrParseFuncSubstitution) ∧
    (scan { initScanner "$\x7bVAR:-d" with accept := acceptNotClosing,
                                           mode := scanIdent ||| scanLbrack }).1 =
      Token.tokenLbrack :=
  ⟨rfl, rfl⟩

/-- C9 (amended): parseParam wraps a closing-brace token as a Text node
without error, exactly like an identifier; and when it fails with
ErrParseFuncSubstitution, either its own scan produced a token that is
none of open-brace, identifier, closing-brace (end of input or an illegal
character), or the scan produced open-brace and the nested parseFunc call
itself returned that error. -/
theorem parseParam_rbrack_text_and_err_source :
    (∀ (fuel : Nat) (accept : Char → Nat → Bool) (mode : Nat) (s s1 : Scanner),
      scan { s with accept := accept, mode := mode ||| scanLbrack } = (Token.tokenRbrack, s1) →
      parseParam (fuel+1) accept mode s = some ⟨newTextNode (strVal s1), none, s1⟩) ∧
    (∀ (fuel : Nat) (accept : Char → Nat → Bool) (mode : Nat) (s : Scanner) (r : Res),
      parseParam (fuel+1) accept mode s = some r →
      r.err = some ErrParseFuncSubstitution →
      ((scan { s with accept := accept, mode := mode ||| scanLbrack }).1 = Token.tokenLbrack ∧
        parseFunc fuel (scan { s with accept := accept, mode := mode ||| scanLbrack }).2 = some r) ∨
      (scan { s with accept := accept, mode := mode ||| scanLbrack }).1 = Token.tokenEOF ∨
      (scan { s with accept := accept, mode := mode ||| scanLbrack }).1 = Token.tokenIllegal) := by
  constructor
  · intro fuel accept mode s s1 hscan
    simp only [parseParam_succ, hscan]
  · intro fuel accept mode s r h he
    simp only [parseParam_succ] at h
    rcases hscan : scan { s with accept := accept, mode := mode ||| scanLbrack } with ⟨tok, s1⟩
    rw [hscan] at h
    cases tok with
    | tokenLbrack => exact Or.inl ⟨rfl, h⟩
    | tokenIdent => injection h with h; subst h; simp at he
    | tokenRbrack => injection h with h; subst h; simp at he
    | tokenEOF => exact Or.inr (Or.inl rfl)
    | tokenIllegal => exact Or.inr (Or.inr rfl)

/-- C5: a successfully parsed substring substitution carries exactly one
argument (the offset) when the token after the offset is the closing
brace, and exactly two arguments (offset then length, in that order,
followed by the required closing brace) when a colon delimiter token
follows the offset. -/
theorem parseSubstrFunc_arg_count (fuel : Nat) (name : String) (s0 : Scanner) (r : Res)
    (h : parseSubstrFunc (fuel+1) name s0 = some r) (he : r.err = none) :
    ∃ s1 r1 tok2 s3,
      scan { s0 with accept := acceptOneColon, mode := scanIdent } = (Token.tokenIdent, s1) ∧
      parseParam fuel rejectColonClose scanIdent s1 = some r1 ∧ r1.err = none ∧
      scan { r1.s with accept := acceptColon, mode := scanIdent ||| scanRbrack } = (tok2, s3) ∧
      ((tok2 = Token.tokenRbrack ∧ r.node = Node.func (strVal s1) name [r1.node]) ∨
       (tok2 = Token.tokenIdent ∧
         ∃ r2, parseParam fuel acceptNotClosing scanIdent s3 = some r2 ∧
               r2.err = none ∧ (consumeRbrack r2.s).1 = none ∧
               r.node = Node.func (strVal s1) name [r1.node, r2.node])) := by
  simp only [parseSubstrFunc_succ] at h
  split at h
  · -- identifier operator token scanned
    rename_i s1 heq
    split at h
    · exact Option.noConfusion h
    · rename_i r1 hp1
      split at h
      · rename_i h1
        injection h with h; subst h
        rw [he] at h1; exact absurd h1 (by simp)
      · rename_i h1
        split at h
        · -- closing brace directly after the offset
          rename_i s3 heq2
          injection h with h; subst h
          exact ⟨s1, r1, Token.tokenRbrack, s3, heq, hp1,
            Option.not_isSome_iff_eq_none.mp h1, heq2, Or.inl ⟨rfl, rfl⟩⟩
        · -- colon delimiter, then the length argument
          rename_i s3 heq2
          split at h
          · exact Option.noConfusion h
          · rename_i r2 hp2
            split at h
            · rename_i h2
              injection h with h; subst h
              rw [he] at h2; exact absurd h2 (by simp)
            · rename_i h2
              injection h with h; subst h
              exact ⟨s1, r1, Token.tokenIdent, s3, heq, hp1,
                Option.not_isSome_iff_eq_none.mp h1, heq2,
                Or.inr ⟨rfl, r2, hp2, Option.not_isSome_iff_eq_none.mp h2, he, rfl⟩⟩
        · -- neither brace nor delimiter: error
          injection h with h; subst h
          exact Option.noConfusion he
  · -- operator scan failed: error
    injection h with h; subst h
    exact Option.noConfusion he


/-- Witness for C5 at the concrete one-argument input. -/
theorem parseSubstrFunc_arg_count_witness :
    ∃ s1 r1 tok2 s3,
      scan { initScanner ":1\x7d" with accept := acceptOneColon, mode := scanIdent } =
        (Token.tokenIdent, s1) ∧
      parseParam 9 rejectColonClose scanIdent s1 = some r1 ∧ r1.err = none ∧
      scan { r1.s with accept := acceptColon, mode := scanIdent ||| scanRbrack } = (tok2, s3) ∧
      ((tok2 = Token.tokenRbrack ∧
          substrWitnessRes.node = Node.func (strVal s1) "VAR" [r1.node]) ∨
       (tok2 = Token.tokenIdent ∧
         ∃ r2, parseParam 9 acceptNotClosing scanIdent s3 = some r2 ∧
               r2.err = none ∧ (consumeRbrack r2.s).1 = none ∧
               substrWitnessRes.node = Node.func (strVal s1) "VAR" [r1.node, r2.node])) :=
  parseSubstrFunc_arg_count 9 "VAR" (initScanner ":1\x7d") substrWitnessRes
    (Option.some_get (by rfl)).symm (by rfl)

/-- C6: a successfully parsed replace substitution scanned its pattern
argument under the predicate stopping at an unescaped slash, consumed the
required slash delimiter token, and carries exactly one argument (the
pattern, with the replacement omitted) when the closing brace directly
follows the delimiter, and exactly two arguments (pattern then
replacement, followed by the required closing brace) otherwise. -/
theorem parseReplaceFunc_arg_count (fuel : Nat) (name : String) (s0 : Scanner) (r : Res)
    (h : parseReplaceFunc (fuel+1) name s0 = some r) (he : r.err = none) :
    ∃ s1 r1 s3,
      scan { s0 with accept := acceptReplaceFunc, mode := scanIdent } = (Token.tokenIdent, s1) ∧
      parseParam fuel acceptNotSlash (scanIdent ||| scanEscape) s1 = some r1 ∧ r1.err = none ∧
      scan { r1.s with accept := acceptSlash, mode := scanIdent } = (Token.tokenIdent, s3) ∧
      ((peekChar s3 = some '\x7d' ∧ (consumeRbrack s3).1 = none ∧
          r.node = Node.func (strVal s1) name [r1.node]) ∨
       ((peekChar s3 == some '\x7d') = false ∧
         ∃ r2, parseParam fuel acceptNotClosing (scanIdent ||| scanEscape) s3 = some r2 ∧
               r2.err = none ∧ (consumeRbrack r2.s).1 = none ∧
               r.node = Node.func (strVal s1) name [r1.node, r2.node])) := by
  simp only [parseReplaceFunc_succ] at h
  split at h
  · -- replace operator token scanned
    rename_i s1 heq
    split at h
    · exact Option.noConfusion h
    · rename_i r1 hp1
      split at h
      · rename_i h1
        injection h with h; subst h
        rw [he] at h1; exact absurd h1 (by simp)
      · rename_i h1
        split at h
        · -- the required slash delimiter token
          rename_i s3 heq2
          split at h
          · -- closing brace directly after the delimiter: replacement omitted
            rename_i hbr
            injection h with h; subst h
            exact ⟨s1, r1, s3, heq, hp1, Option.not_isSome_iff_eq_none.mp h1, heq2,
              Or.inl ⟨by simpa using hbr, he, rfl⟩⟩
          · -- replacement argument then closing brace
            rename_i hbr
            split at h
            · exact Option.noConfusion h
            · rename_i r2 hp2
              split at h
              · rename_i h2
                injection h with h; subst h
                rw [he] at h2; exact absurd h2 (by simp)
              · rename_i h2
                injection h with h; subst h
                exact ⟨s1, r1, s3, heq, hp1, Option.not_isSome_iff_eq_none.mp h1, heq2,
                  Or.inr ⟨by simpa using hbr, r2, hp2,
                    Option.not_isSome_iff_eq_none.mp h2, he, rfl⟩⟩
        · -- missing delimiter: error
          injection h with h; subst h
          exact Option.noConfusion he
  · -- operator scan failed: error
    injection h with h; subst h
    exact Option.noConfusion he


/-- Witness for C6 at the concrete two-argument input. -/
theorem parseReplaceFunc_arg_count_witness :
    ∃ s1 r1 s3,
      scan { initScanner "/a/b\x7d" with accept := acceptReplaceFunc, mode := scanIdent } =
        (Token.tokenIdent, s1) ∧
      parseParam 9 acceptNotSlash (scanIdent ||| scanEscape) s1 = some r1 ∧ r1.err = none ∧
      scan { r1.s with accept := acceptSlash, mode := scanIdent } = (Token.tokenIdent, s3) ∧
      ((peekChar s3 = some '\x7d' ∧ (consumeRbrack s3).1 = none ∧
          replaceWitnessRes.node = Node.func (strVal s1) "VAR" [r1.node]) ∨
       ((peekChar s3 == some '\x7d') = false ∧
         ∃ r2, parseParam 9 acceptNotClosing (scanIdent ||| scanEscape) s3 = some r2 ∧
               r2.err = none ∧ (consumeRbrack r2.s).1 = none ∧
               replaceWitnessRes.node = Node.func (strVal s1) "VAR" [r1.node, r2.node])) :=
  parseReplaceFunc_arg_count 9 "VAR" (initScanner "/a/b\x7d") replaceWitnessRes
    (Option.some_get (by rfl)).symm (by rfl)


/-- Witness for C9's amended theorem: the closing-brace clause applied at
a concrete scanner state. -/
theorem parseParam_rbrack_text_witness :
    parseParam (4+1) acceptColon (scanIdent ||| scanRbrack) (initScanner "\x7d") =
      some ⟨newTextNode (strVal rbrackWitnessState), none, rbrackWitnessState⟩ :=
  parseParam_rbrack_text_and_err_source.1 4 acceptColon (scanIdent ||| scanRbrack)
    (initScanner "\x7d") rbrackWitnessState rfl


/-- The empty-sentinel test on each non-sentinel constructor. -/
lemma isEmpty_text (v : String) : (Node.text v).isEmpty = false := rfl

/-- The empty-sentinel test on a list node. -/
lemma isEmpty_list (l r : Node) : (Node.list l r).isEmpty = false := rfl

/-- The empty-sentinel test on a substitution node. -/
lemma isEmpty_func (f p : String) (a : List Node) : (Node.func f p a).isEmpty = false := rfl

/-- The empty-sentinel test on the nil node. -/
lemma isEmpty_nil : Node.nil.isEmpty = false := rfl

/-- Appending one node to an argument list preserves the C7 invariant
computation. -/
lemma goodArgs_append (xs : List Node) (y : Node) :
    goodArgs (xs ++ [y]) = (goodArgs xs && goodNode y) := by
  induction xs with
  | nil => simp [goodArgs]
  | cons a rest ih => simp [goodArgs, ih, Bool.and_assoc]

/-- Helper for C7: every node any production hands back satisfies the
invariant, and parseFunc, parseParam and the operator productions never
hand back the empty sentinel. -/
lemma parser_good : ∀ fuel : Nat,
    (∀ s r, parseAny fuel s = some r → goodNode r.node = true) ∧
    (∀ s r, parseFunc fuel s = some r →
      goodNode r.node = true ∧ r.node.isEmpty = false) ∧
    (∀ a m s r, parseParam fuel a m s = some r →
      goodNode r.node = true ∧ r.node.isEmpty = false) ∧
    (∀ nm s r, parseDefaultOrSubstr fuel nm s = some r →
      goodNode r.node = true ∧ r.node.isEmpty = false) ∧
    (∀ nm s r, parseSubstrFunc fuel nm s = some r →
      goodNode r.node = true ∧ r.node.isEmpty = false) ∧
    (∀ nm a s r, parseRemoveFunc fuel nm a s = some r →
      goodNode r.node = true ∧ r.node.isEmpty = false) ∧
    (∀ nm s r, parseReplaceFunc fuel nm s = some r →
      goodNode r.node = true ∧ r.node.isEmpty = false) ∧
    (∀ nm s r, parseDefaultFunc fuel nm s = some r →
      goodNode r.node = true ∧ r.node.isEmpty = false) ∧
    (∀ fn nm args s r, goodArgs args = true → parseDefaultLoop fuel fn nm args s = some r →
      goodNode r.node = true ∧ r.node.isEmpty = false) ∧
    (∀ nm s r, parseCasingFunc fuel nm s = some r →
      goodNode r.node = true ∧ r.node.isEmpty = false) ∧
    (∀ s r, parseLenFunc fuel s = some r →
      goodNode r.node = true ∧ r.node.isEmpty = false) := by
  intro fuel
  induction fuel with
  | zero =>
    exact ⟨fun s r h => Option.noConfusion h, fun s r h => Option.noConfusion h,
      fun a m s r h => Option.noConfusion h, fun nm s r h => Option.noConfusion h,
      fun nm s r h => Option.noConfusion h, fun nm a s r h => Option.noConfusion h,
      fun nm s r h => Option.noConfusion h, fun nm s r h => Option.noConfusion h,
      fun fn nm args s r hg h => Option.noConfusion h, fun nm s r h => Option.noConfusion h,
      fun s r h => Option.noConfusion h⟩
  | succ n ih =>
    obtain ⟨ihAny, ihFunc, ihParam, ihDos, ihSub, ihRem, ihRep, ihDflt, ihLoop,
      ihCas, ihLen⟩ := ih
    constructor
    · -- parseAny
      intro s r h
      simp only [parseAny_succ] at h
      split at h
      · rename_i s1 heq
        split at h
        · exact Option.noConfusion h
        · rename_i r1 hp
          split at h
          · injection h with h; subst h; rfl
          · split at h
            · injection h with h; subst h; rfl
            · rename_i hne hemp
              injection h with h; subst h
              have hg := ihAny s1 r1 hp
              have hemp2 : r1.node.isEmpty = false := by simpa using hemp
              simp [goodNode, newListNode, newTextNode, hg, hemp2, isEmpty_text]
      · injection h with h; subst h; rfl
      · rename_i s1 heq
        split at h
        · exact Option.noConfusion h
        · rename_i rf hpf
          split at h
          · injection h with h; subst h; rfl
          · rename_i hfe
            split at h
            · exact Option.noConfusion h
            · rename_i r1 hp
              split at h
              · injection h with h; subst h; rfl
              · split at h
                · injection h with h; subst h
                  exact (ihFunc s1 rf hpf).1
                · rename_i hne hemp
                  injection h with h; subst h
                  have hgf := ihFunc s1 rf hpf
                  have hg := ihAny rf.s r1 hp
                  have hemp2 : r1.node.isEmpty = false := by simpa using hemp
                  simp [goodNode, newListNode, hg, hemp2, hgf.1, hgf.2]
      · injection h with h; subst h; rfl
    constructor
    · -- parseFunc
      intro s r h
      simp only [parseFunc_succ] at h
      split at h
      · exact ihLen _ r h
      · split at h
        · rename_i s1 heq
          split at h
          · exact ihDos _ s1 r h
          · split at h
            · exact ihDflt _ s1 r h
            · split at h
              · exact ihCas _ s1 r h
              · split at h
                · exact ihRep _ s1 r h
                · split at h
                  · exact ihRem _ _ s1 r h
                  · split at h
                    · exact ihRem _ _ s1 r h
                    · split at h
                      · injection h with h; subst h
                        exact ⟨rfl, rfl⟩
                      · injection h with h; subst h
                        exact ⟨rfl, rfl⟩
        · injection h with h; subst h
          exact ⟨rfl, rfl⟩
    constructor
    · -- parseParam
      intro a m s r h
      simp only [parseParam_succ] at h
      split at h
      · exact ihFunc _ r h
      · injection h with h; subst h; exact ⟨rfl, rfl⟩
      · injection h with h; subst h; exact ⟨rfl, rfl⟩
      · injection h with h; subst h; exact ⟨rfl, rfl⟩
    constructor
    · -- parseDefaultOrSubstr
      intro nm s r h
      simp only [parseDefaultOrSubstr_succ] at h
      split at h
      · exact ihDflt nm _ r h
      · exact ihSub nm _ r h
    constructor
    · -- parseSubstrFunc
      intro nm s r h
      simp only [parseSubstrFunc_succ] at h
      split at h
      · rename_i s1 heq
        split at h
        · exact Option.noConfusion h
        · rename_i r1 hp1
          split at h
          · injection h with h; subst h; exact ⟨rfl, rfl⟩
          · split at h
            · rename_i s3 heq2
              injection h with h; subst h
              have hg := (ihParam _ _ s1 r1 hp1).1
              exact ⟨by simp [goodNode, goodArgs, hg], rfl⟩
            · rename_i s3 heq2
              split at h
              · exact Option.noConfusion h
              · rename_i r2 hp2
                split at h
                · injection h with h; subst h; exact ⟨rfl, rfl⟩
                · injection h with h; subst h
                  have hg1 := (ihParam _ _ s1 r1 hp1).1
                  have hg2 := (ihParam _ _ s3 r2 hp2).1
                  exact ⟨by simp [goodNode, goodArgs, hg1, hg2], rfl⟩
            · injection h with h; subst h; exact ⟨rfl, rfl⟩
      · injection h with h; subst h; exact ⟨rfl, rfl⟩
    constructor
    · -- parseRemoveFunc
      intro nm a s r h
      simp only [parseRemoveFunc_succ] at h
      split at h
      · rename_i s1 heq
        split at h
        · exact Option.noConfusion h
        · rename_i r1 hp1
          split at h
          · injection h with h; subst h; exact ⟨rfl, rfl⟩
          · injection h with h; subst h
            have hg := (ihParam _ _ s1 r1 hp1).1
            exact ⟨by simp [goodNode, goodArgs, hg], rfl⟩
      · injection h with h; subst h; exact ⟨rfl, rfl⟩
    constructor
    · -- parseReplaceFunc
      intro nm s r h
      simp only [parseReplaceFunc_succ] at h
      split at h
      · rename_i s1 heq
        split at h
        · exact Option.noConfusion h
        · rename_i r1 hp1
          split at h
          · injection h with h; subst h; exact ⟨rfl, rfl⟩
          · split at h
            · rename_i s3 heq2
              split at h
              · injection h with h; subst h
                have hg := (ihParam _ _ s1 r1 hp1).1
                exact ⟨by simp [goodNode, goodArgs, hg], rfl⟩
              · split at h
                · exact Option.noConfusion h
                · rename_i r2 hp2
                  split at h
                  · injection h with h; subst h; exact ⟨rfl, rfl⟩
                  · injection h with h; subst h
                    have hg1 := (ihParam _ _ s1 r1 hp1).1
                    have hg2 := (ihParam _ _ s3 r2 hp2).1
                    exact ⟨by simp [goodNode, goodArgs, hg1, hg2], rfl⟩
            · injection h with h; subst h; exact ⟨rfl, rfl⟩
      · injection h with h; subst h; exact ⟨rfl, rfl⟩
    constructor
    · -- parseDefaultFunc
      intro nm s r h
      simp only [parseDefaultFunc_succ] at h
      split at h
      · rename_i s1 heq
        exact ihLoop _ nm [] s1 r rfl h
      · injection h with h; subst h; exact ⟨rfl, rfl⟩
    constructor
    · -- parseDefaultLoop
      intro fn nm args s r hargs h
      simp only [parseDefaultLoop_succ] at h
      split at h
      · injection h with h; subst h
        exact ⟨by simp [goodNode, hargs], rfl⟩
      · split at h
        · exact Option.noConfusion h
        · rename_i r1 hp1
          split at h
          · injection h with h; subst h; exact ⟨rfl, rfl⟩
          · have hg := (ihParam _ _ s r1 hp1).1
            exact ihLoop fn nm (args ++ [r1.node]) r1.s r
              (by simp [goodArgs_append, hargs, hg]) h
    constructor
    · -- parseCasingFunc
      intro nm s r h
      simp only [parseCasingFunc_succ] at h
      split at h
      · injection h with h; subst h; exact ⟨rfl, rfl⟩
      · injection h with h; subst h; exact ⟨rfl, rfl⟩
    · -- parseLenFunc
      intro s r h
      simp only [parseLenFunc_succ] at h
      split at h
      · rename_i s1 heq
        split at h
        · injection h with h; subst h; exact ⟨rfl, rfl⟩
        · injection h with h; subst h; exact ⟨rfl, rfl⟩
      · injection h with h; subst h; exact ⟨rfl, rfl⟩

/-- C7: the tree of every successful Parse satisfies the invariant — no
List node has the empty sentinel node as either child; the empty node can
only be the whole tree (the empty template), never a child, because a
production with no trailing sibling returns its single node directly
instead of wrapping it in a List. -/
theorem parse_tree_no_empty_children (fuel : Nat) (buf : String) (t : Tree)
    (h : Parse fuel buf = some (t, none)) : goodNode t.Root = true := by
  unfold Parse at h
  rcases hp : parseAny fuel (initScanner buf) with _ | r
  · rw [hp] at h; exact Option.noConfusion h
  · rw [hp] at h
    simp only [Option.map_some', Option.some.injEq, Prod.mk.injEq] at h
    have := (parser_good fuel).1 (initScanner buf) r hp
    rw [← h.1]
    exact this

/-- Witness for C7 at a concrete template mixing text and a default
substitution. -/
theorem parse_tree_no_empty_children_witness :
    goodNode (Tree.Root ⟨Node.list (Node.text "a")
      (Node.list (Node.func ":-" "B" [Node.text "c"]) (Node.text "d"))⟩) = true :=
  parse_tree_no_empty_children 20 "a$\x7bB:-c\x7dd"
    ⟨Node.list (Node.text "a")
      (Node.list (Node.func ":-" "B" [Node.text "c"]) (Node.text "d"))⟩ (by rfl)


/-- A template with no substitution opener keeps that property when its
first rune is dropped. -/
lemma hasSub_tail (c : Char) (l : List Char) (h : hasSub (c :: l) = false) :
    hasSub l = false := by
  cases l with
  | nil => rfl
  | cons b rest =>
    simp only [hasSub, Bool.or_eq_false_iff] at h
    exact h.2

/-- Helper for C8: under the top-level literal-text configuration, the
identifier loop of the scanner consumes the whole remaining input when no
substitution opener occurs in it. -/
lemma scanIdentAux_literal : ∀ (fuel : Nat) (s : Scanner),
    s.accept = acceptRune → s.mode = scanIdent ||| scanLbrack ||| scanEscape →
    s.escapeChars = dollar → hasSub (s.buf.drop s.pos) = false →
    s.pos ≤ s.buf.length → s.buf.length - s.pos < fuel →
    scanIdentAux fuel s = { s with pos := s.buf.length, width := 0 } := by
  intro fuel
  induction fuel with
  | zero => intro s _ _ _ _ _ hf; omega
  | succ n ih =>
    intro s hacc hmode hesc hsub hpos hf
    rcases Nat.lt_or_ge s.pos s.buf.length with hlt | hge
    · have hc : s.buf[s.pos]? = some s.buf[s.pos] := List.getElem?_eq_getElem hlt
      have hdrop : s.buf.drop s.pos = s.buf[s.pos] :: s.buf.drop (s.pos + 1) :=
        List.drop_eq_getElem_cons hlt
      have htail : hasSub (s.buf.drop (s.pos + 1)) = false := by
        apply hasSub_tail s.buf[s.pos]
        rw [← hdrop]; exact hsub
      simp only [scanIdentAux, readChar, hc]
      by_cases hb : (((s.mode &&& scanLbrack) != 0) && (s.buf[s.pos] == '$') &&
          (peekChar { s with pos := s.pos + 1, width := 1 } == some '\x7b')) = true
      · exfalso
        simp only [Bool.and_eq_true, beq_iff_eq, peekChar] at hb
        obtain ⟨⟨hm, hdol⟩, hbr⟩ := hb
        have hlt2 : s.pos + 1 < s.buf.length := by
          by_contra hcon
          rw [List.getElem?_eq_none (by omega)] at hbr
          exact Option.noConfusion hbr
        have hdrop2 : s.buf.drop (s.pos + 1) =
            s.buf[s.pos + 1] :: s.buf.drop (s.pos + 2) :=
          List.drop_eq_getElem_cons hlt2
        have hb2 : s.buf[s.pos + 1] = '\x7b' := by
          rw [List.getElem?_eq_getElem hlt2] at hbr
          exact Option.some_injective _ hbr
        rw [hdrop, hdrop2, hdol, hb2] at hsub
        simp [hasSub] at hsub
      · rw [if_neg hb]
        by_cases he : (((s.mode &&& scanEscape) != 0) && (s.buf[s.pos] == '\\') &&
            isEscapable { s with pos := s.pos + 1, width := 1 }) = true
        · rw [if_pos he]
          simp only [Bool.and_eq_true, beq_iff_eq, isEscapable, peekChar] at he
          obtain ⟨⟨hm, hbs⟩, hesc2⟩ := he
          rcases hpk : s.buf[s.pos + 1]? with _ | c2
          · rw [hpk] at hesc2; exact absurd hesc2 (by simp)
          · have hlt2 : s.pos + 1 < s.buf.length := by
              by_contra hcon
              rw [List.getElem?_eq_none (by omega)] at hpk
              exact Option.noConfusion hpk
            have := ih { s with pos := s.pos + 2, width := 1 }
              hacc hmode hesc
              (by
                have hdrop2 : s.buf.drop (s.pos + 1) =
                    s.buf[s.pos + 1] :: s.buf.drop (s.pos + 2) :=
                  List.drop_eq_getElem_cons hlt2
                exact hasSub_tail _ _ (hdrop2 ▸ htail))
              (by dsimp only; omega) (by dsimp only; omega)
            simp only [readChar, hpk]
            exact this
        · rw [if_neg he]
          have haccept : s.accept s.buf[s.pos]
              (({ s with pos := s.pos + 1, width := 1 } : Scanner).pos -
                ({ s with pos := s.pos + 1, width := 1 } : Scanner).start) = true := by
            rw [hacc]; rfl
          rw [if_pos haccept]
          exact ih { s with pos := s.pos + 1, width := 1 } hacc hmode hesc htail
            (by dsimp only; omega) (by dsimp only; omega)
    · have hc : s.buf[s.pos]? = none := List.getElem?_eq_none hge
      have hpl : s.pos = s.buf.length := by omega
      have hc2 : s.buf[s.buf.length]? = none := by rw [← hpl]; exact hc
      simp only [scanIdentAux, readChar, hpl, hc2]

/-- Helper for C8: under the literal-text configuration, a scan at a
non-exhausted position with no substitution opener ahead returns one
identifier token covering the whole rest of the input. -/
lemma scan_literal_ident (s : Scanner) (hacc : s.accept = acceptRune)
    (hmode : s.mode = scanIdent ||| scanLbrack ||| scanEscape)
    (hesc : s.escapeChars = dollar)
    (hsub : hasSub (s.buf.drop s.pos) = false) (hlt : s.pos < s.buf.length) :
    scan s = (Token.tokenIdent,
      { s with start := s.pos, pos := s.buf.length, width := 0 }) := by
  have hc : s.buf[s.pos]? = some s.buf[s.pos] := List.getElem?_eq_getElem hlt
  have hdrop : s.buf.drop s.pos = s.buf[s.pos] :: s.buf.drop (s.pos + 1) :=
    List.drop_eq_getElem_cons hlt
  have htail : hasSub (s.buf.drop (s.pos + 1)) = false := by
    apply hasSub_tail s.buf[s.pos]
    rw [← hdrop]; exact hsub
  simp only [scan, readChar, hc]
  by_cases hb : (((s.mode &&& scanLbrack) != 0) && (s.buf[s.pos] == '$') &&
      (peekChar { s with start := s.pos, pos := s.pos + 1, width := 1 } == some '\x7b')) = true
  · exfalso
    simp only [Bool.and_eq_true, beq_iff_eq, peekChar] at hb
    obtain ⟨⟨hm, hdol⟩, hbr⟩ := hb
    have hlt2 : s.pos + 1 < s.buf.length := by
      by_contra hcon
      rw [List.getElem?_eq_none (by omega)] at hbr
      exact Option.noConfusion hbr
    have hdrop2 : s.buf.drop (s.pos + 1) = s.buf[s.pos + 1] :: s.buf.drop (s.pos + 2) :=
      List.drop_eq_getElem_cons hlt2
    have hb2 : s.buf[s.pos + 1] = '\x7b' := by
      rw [List.getElem?_eq_getElem hlt2] at hbr
      exact Option.some_injective _ hbr
    rw [hdrop, hdrop2, hdol, hb2] at hsub
    simp [hasSub] at hsub
  · rw [if_neg hb]
    have hrb : ((s.mode &&& scanRbrack) != 0) = false := by
      rw [hmode]; decide
    have hid : ((s.mode &&& scanIdent) != 0) = true := by
      rw [hmode]; decide
    simp only [hrb, hid, Bool.false_and, if_neg (by simp : ¬(false = true)), if_pos rfl]
    by_cases he : (((s.mode &&& scanEscape) != 0) && (s.buf[s.pos] == '\\') &&
        isEscapable { s with start := s.pos, pos := s.pos + 1, width := 1 }) = true
    · rw [if_pos he]
      simp only [Bool.and_eq_true, beq_iff_eq, isEscapable, peekChar] at he
      obtain ⟨⟨hm, hbs⟩, hesc2⟩ := he
      rcases hpk : s.buf[s.pos + 1]? with _ | c2
      · rw [hpk] at hesc2; exact absurd hesc2 (by simp)
      · have hlt2 : s.pos + 1 < s.buf.length := by
          by_contra hcon
          rw [List.getElem?_eq_none (by omega)] at hpk
          exact Option.noConfusion hpk
        simp only [readChar, hpk]
        refine congrArg (Prod.mk Token.tokenIdent) ?_
        have hdrop2 : s.buf.drop (s.pos + 1) =
            s.buf[s.pos + 1] :: s.buf.drop (s.pos + 2) :=
          List.drop_eq_getElem_cons hlt2
        exact scanIdentAux_literal _ _ hacc hmode hesc
          (hasSub_tail _ _ (hdrop2 ▸ htail)) (by dsimp only; omega) (by dsimp only; omega)
    · rw [if_neg he]
      have haccept : s.accept s.buf[s.pos] (s.pos + 1 - s.pos) = true := by
        rw [hacc]; rfl
      rw [if_pos haccept]
      refine congrArg (Prod.mk Token.tokenIdent) ?_
      exact scanIdentAux_literal _ _ hacc hmode hesc htail (by dsimp only; omega) (by dsimp only; omega)

/-- Helper for C8: a scan at an exhausted position returns the end of
input token without moving. -/
lemma scan_literal_eof (s : Scanner) (hge : s.buf.length ≤ s.pos) :
    scan s = (Token.tokenEOF, { s with start := s.pos, width := 0 }) := by
  have hc : s.buf[s.pos]? = none := List.getElem?_eq_none hge
  simp only [scan, readChar, hc]


/-- Helper for C8: parseAny at an exhausted input yields the empty
sentinel with no error. -/
lemma parseAny_eof (fuel : Nat) (s : Scanner) (hge : s.buf.length ≤ s.pos) :
    parseAny (fuel+1) s = some ⟨Node.empty, none,
      (scan { s with accept := acceptRune, mode := scanIdent ||| scanLbrack ||| scanEscape,
                     escapeChars := dollar }).2⟩ := by
  have hscan := scan_literal_eof
    { s with accept := acceptRune, mode := scanIdent ||| scanLbrack ||| scanEscape,
             escapeChars := dollar } (by dsimp only; omega)
  simp only [parseAny_succ]
  rw [hscan]

/-- Helper for C8: parseAny on a non-exhausted literal-only remainder
yields one Text node covering the whole remainder, with no error. -/
lemma parseAny_literal_text (fuel : Nat) (s : Scanner)
    (hsub : hasSub (s.buf.drop s.pos) = false) (hlt : s.pos < s.buf.length) :
    parseAny (fuel+2) s =
      some ⟨newTextNode (String.mk ((s.buf.drop s.pos).take (s.buf.length - s.pos))),
            none,
            (scan (⟨s.buf, s.buf.length, s.pos, 0, acceptRune,
              scanIdent ||| scanLbrack ||| scanEscape, dollar⟩ : Scanner)).2⟩ := by
  have hscan1 := scan_literal_ident
    { s with accept := acceptRune, mode := scanIdent ||| scanLbrack ||| scanEscape,
             escapeChars := dollar } rfl rfl rfl (by dsimp only; exact hsub)
    (by dsimp only; omega)
  have hscan2 := scan_literal_eof
    (⟨s.buf, s.buf.length, s.pos, 0, acceptRune,
      scanIdent ||| scanLbrack ||| scanEscape, dollar⟩ : Scanner)
    (by dsimp only; omega)
  simp only [parseAny_succ]
  rw [hscan1]
  dsimp only
  rw [hscan2]
  rfl

/-- C8: a template containing no substitution opener parses successfully
and expands, under any resolver, to exactly itself: the pipeline is the
identity on literal-only text. -/
theorem literal_template_identity (buf : String) (resolve : String → Option String)
    (fuel : Nat) (hsub : hasSub buf.data = false) :
    ∃ t, Parse (fuel+2) buf = some (t, none) ∧ Execute t resolve = Except.ok buf := by
  rcases Nat.eq_zero_or_pos buf.data.length with hlen | hlen
  · have h := parseAny_eof (fuel+1) (initScanner buf)
      (by dsimp only [initScanner]; omega)
    refine ⟨⟨Node.empty⟩, ?_, ?_⟩
    · unfold Parse
      rw [h]
      rfl
    · have hb : buf = "" := by
        cases buf with
        | mk d =>
          have hd : d = [] := List.eq_nil_of_length_eq_zero hlen
          rw [hd]
      rw [hb]
      rfl
  · have h := parseAny_literal_text fuel (initScanner buf)
      (by dsimp only [initScanner]; simpa using hsub)
      (by dsimp only [initScanner]; omega)
    refine ⟨⟨Node.text buf⟩, ?_, ?_⟩
    · unfold Parse
      rw [h]
      have hst : String.mk (((initScanner buf).buf.drop (initScanner buf).pos).take
          ((initScanner buf).buf.length - (initScanner buf).pos)) = buf := by
        dsimp only [initScanner]
        rw [List.drop_zero, Nat.sub_zero, List.take_length]
      rw [hst]
      rfl
    · rfl

/-- Witness for C8 at a concrete literal template (one containing a bare
dollar that opens no substitution). -/
theorem literal_template_identity_witness :
    hasSub ("hello $world").data = false ∧
    ∃ t, Parse (0+2) "hello $world" = some (t, none) ∧
         Execute t (fun _ => none) = Except.ok "hello $world" :=
  ⟨by rfl, literal_template_identity "hello $world" (fun _ => none) 0 (by rfl)⟩


/-- Unfolding equation of the read operation on a readable position. -/
lemma readChar_eq_some (s : Scanner) (c : Char) (h : s.buf[s.pos]? = some c) :
    readChar s = (some c, { s with pos := s.pos + 1, width := 1 }) := by
  simp [readChar, h]

/-- Unfolding equation of the read operation at the end of input. -/
lemma readChar_eq_none (s : Scanner) (h : s.buf[s.pos]? = none) :
    readChar s = (none, { s with width := 0 }) := by
  simp [readChar, h]

/-- The read operation preserves the buffer. -/
lemma readChar_snd_buf (s : Scanner) : (readChar s).2.buf = s.buf := by
  rcases h : s.buf[s.pos]? with _ | c
  · rw [readChar_eq_none s h]
  · rw [readChar_eq_some s c h]

/-- The read operation never moves the cursor backwards, and by at most
one rune forwards. -/
lemma readChar_snd_pos (s : Scanner) :
    s.pos ≤ (readChar s).2.pos ∧ (readChar s).2.pos ≤ s.pos + 1 := by
  rcases h : s.buf[s.pos]? with _ | c
  · rw [readChar_eq_none s h]; dsimp only; omega
  · rw [readChar_eq_some s c h]; dsimp only; omega

/-- The identifier loop preserves the buffer. -/
lemma scanIdentAux_buf : ∀ (fuel : Nat) (s : Scanner),
    (scanIdentAux fuel s).buf = s.buf := by
  intro fuel
  induction fuel with
  | zero => intro s; rfl
  | succ n ih =>
    intro s
    rcases h : s.buf[s.pos]? with _ | c
    · simp only [scanIdentAux]
      rw [readChar_eq_none s h]
    · simp only [scanIdentAux]
      rw [readChar_eq_some s c h]
      dsimp only
      split
      · simp [unread]
      · split
        · rw [ih, readChar_snd_buf]
        · split
          · rw [ih]
          · simp [unread]

/-- The identifier loop never moves the cursor backwards. -/
lemma scanIdentAux_pos_ge : ∀ (fuel : Nat) (s : Scanner),
    s.pos ≤ (scanIdentAux fuel s).pos := by
  intro fuel
  induction fuel with
  | zero => intro s; exact Nat.le_refl _
  | succ n ih =>
    intro s
    rcases h : s.buf[s.pos]? with _ | c
    · simp only [scanIdentAux]
      rw [readChar_eq_none s h]
    · simp only [scanIdentAux]
      rw [readChar_eq_some s c h]
      dsimp only
      split
      · simp [unread]
      · split
        · have h1 := ih (readChar { s with pos := s.pos + 1, width := 1 }).2
          have h2 := readChar_snd_pos { s with pos := s.pos + 1, width := 1 }
          dsimp only at h2
          omega
        · split
          · have h1 := ih { s with pos := s.pos + 1, width := 1 }
            dsimp only at h1
            omega
          · simp [unread]

/-- The scan operation preserves the buffer. -/
lemma scan_snd_buf (s : Scanner) : (scan s).2.buf = s.buf := by
  rcases h : s.buf[s.pos]? with _ | c
  · simp only [scan]
    rw [readChar_eq_none { s with start := s.pos } h]
  · simp only [scan]
    rw [readChar_eq_some { s with start := s.pos } c h]
    dsimp only
    split
    · rw [readChar_snd_buf]
    · split
      · rfl
      · split
        · split
          · rw [scanIdentAux_buf, readChar_snd_buf]
          · split
            · rw [scanIdentAux_buf]
            · rfl
        · rfl

/-- The scan operation never moves the cursor backwards. -/
lemma scan_snd_pos_ge (s : Scanner) : s.pos ≤ (scan s).2.pos := by
  rcases h : s.buf[s.pos]? with _ | c
  · simp only [scan]
    rw [readChar_eq_none { s with start := s.pos } h]
  · simp only [scan]
    rw [readChar_eq_some { s with start := s.pos } c h]
    dsimp only
    split
    · have h1 := readChar_snd_pos { s with start := s.pos, pos := s.pos + 1, width := 1 }
      dsimp only at h1 ⊢
      omega
    · split
      · dsimp only; omega
      · split
        · split
          · have h1 := scanIdentAux_pos_ge s.buf.length
              (readChar { s with start := s.pos, pos := s.pos + 1, width := 1 }).2
            have h2 := readChar_snd_pos { s with start := s.pos, pos := s.pos + 1, width := 1 }
            dsimp only at h2 ⊢
            omega
          · split
            · have h1 := scanIdentAux_pos_ge
                ({ s with start := s.pos, pos := s.pos + 1, width := 1 } : Scanner).buf.length
                { s with start := s.pos, pos := s.pos + 1, width := 1 }
              dsimp only at h1 ⊢
              omega
            · dsimp only; omega
        · dsimp only; omega

/-- A scan that produces a token other than end of input starts from a
position strictly inside the buffer. -/
lemma scan_pos_lt_of_ne_eof (s : Scanner) (h : (scan s).1 ≠ Token.tokenEOF) :
    s.pos < s.buf.length := by
  by_contra hcon
  have hc : s.buf[s.pos]? = none := List.getElem?_eq_none (by omega)
  apply h
  simp only [scan]
  rw [readChar_eq_none { s with start := s.pos } hc]

/-- A scan that produces an identifier, opener or closing-brace token
strictly advances the cursor. -/
lemma scan_progress (s : Scanner)
    (h : (scan s).1 = Token.tokenIdent ∨ (scan s).1 = Token.tokenLbrack ∨
         (scan s).1 = Token.tokenRbrack) :
    s.pos < (scan s).2.pos := by
  rcases hc : s.buf[s.pos]? with _ | c
  · simp only [scan] at h ⊢
    rw [readChar_eq_none { s with start := s.pos } hc] at h
    simp at h
  · simp only [scan] at h ⊢
    rw [readChar_eq_some { s with start := s.pos } c hc] at h ⊢
    dsimp only at h ⊢
    split
    · have h1 := readChar_snd_pos { s with start := s.pos, pos := s.pos + 1, width := 1 }
      dsimp only at h1 ⊢
      omega
    · split
      · dsimp only; omega
      · split
        · split
          · have h1 := scanIdentAux_pos_ge s.buf.length
              (readChar { s with start := s.pos, pos := s.pos + 1, width := 1 }).2
            have h2 := readChar_snd_pos { s with start := s.pos, pos := s.pos + 1, width := 1 }
            dsimp only at h2 ⊢
            omega
          · split
            · have h1 := scanIdentAux_pos_ge
                ({ s with start := s.pos, pos := s.pos + 1, width := 1 } : Scanner).buf.length
                { s with start := s.pos, pos := s.pos + 1, width := 1 }
              dsimp only at h1 ⊢
              omega
            · rename_i hA hB hC hD hE
              rw [if_neg hA, if_neg hB, if_pos hC, if_neg hD, if_neg hE] at h
              simp at h
        · rename_i hA hB hC
          rw [if_neg hA, if_neg hB, if_neg hC] at h
          simp at h

/-- Reading one rune and undoing it leaves both the buffer and the cursor
of the scanner unchanged. -/
lemma unread_readChar (s : Scanner) :
    (unread (readChar s).2).buf = s.buf ∧ (unread (readChar s).2).pos = s.pos := by
  rcases h : s.buf[s.pos]? with _ | c
  · rw [readChar_eq_none s h]; simp [unread]
  · rw [readChar_eq_some s c h]; simp [unread]

/-- Consuming a closing bracket preserves the buffer and never moves the
cursor backwards. -/
lemma consumeRbrack_mono (s : Scanner) :
    (consumeRbrack s).2.buf = s.buf ∧ s.pos ≤ (consumeRbrack s).2.pos := by
  have hb := scan_snd_buf { s with mode := scanRbrack }
  have hp := scan_snd_pos_ge { s with mode := scanRbrack }
  simp only [consumeRbrack]
  rcases hs : scan { s with mode := scanRbrack } with ⟨tok, s1⟩
  rw [hs] at hb hp
  cases tok <;> exact ⟨hb, hp⟩

/-- A scan equation determines the output buffer: it is the input one. -/
lemma scan_eq_buf {s s1 : Scanner} {tok : Token} (h : scan s = (tok, s1)) :
    s1.buf = s.buf := by
  have hb := scan_snd_buf s
  rw [h] at hb
  exact hb

/-- A scan equation bounds the output cursor from below by the input one. -/
lemma scan_eq_pos_ge {s s1 : Scanner} {tok : Token} (h : scan s = (tok, s1)) :
    s.pos ≤ s1.pos := by
  have hp := scan_snd_pos_ge s
  rw [h] at hp
  exact hp

/-- A scan equation with an identifier, opener or closing-brace token moves
the cursor strictly forward. -/
lemma scan_eq_progress {s s1 : Scanner} {tok : Token} (h : scan s = (tok, s1))
    (ht : tok = Token.tokenIdent ∨ tok = Token.tokenLbrack ∨ tok = Token.tokenRbrack) :
    s.pos < s1.pos := by
  have hp := scan_progress s (by rw [h]; exact ht)
  rw [h] at hp
  exact hp

/-- A scan equation with a token other than end of input starts strictly
inside the buffer. -/
lemma scan_eq_lt_len {s s1 : Scanner} {tok : Token} (h : scan s = (tok, s1))
    (ht : tok ≠ Token.tokenEOF) : s.pos < s.buf.length := by
  apply scan_pos_lt_of_ne_eof
  rw [h]
  exact ht

/-- Monotonicity of every production: a successful parse step leaves the
buffer unchanged and never moves the cursor backwards. -/
lemma parser_mono : ∀ fuel : Nat,
    (∀ s r, parseAny fuel s = some r → r.s.buf = s.buf ∧ s.pos ≤ r.s.pos) ∧
    (∀ s r, parseFunc fuel s = some r → r.s.buf = s.buf ∧ s.pos ≤ r.s.pos) ∧
    (∀ a m s r, parseParam fuel a m s = some r → r.s.buf = s.buf ∧ s.pos ≤ r.s.pos) ∧
    (∀ nm s r, parseDefaultOrSubstr fuel nm s = some r → r.s.buf = s.buf ∧ s.pos ≤ r.s.pos) ∧
    (∀ nm s r, parseSubstrFunc fuel nm s = some r → r.s.buf = s.buf ∧ s.pos ≤ r.s.pos) ∧
    (∀ nm a s r, parseRemoveFunc fuel nm a s = some r → r.s.buf = s.buf ∧ s.pos ≤ r.s.pos) ∧
    (∀ nm s r, parseReplaceFunc fuel nm s = some r → r.s.buf = s.buf ∧ s.pos ≤ r.s.pos) ∧
    (∀ nm s r, parseDefaultFunc fuel nm s = some r → r.s.buf = s.buf ∧ s.pos ≤ r.s.pos) ∧
    (∀ fn nm args s r, parseDefaultLoop fuel fn nm args s = some r →
      r.s.buf = s.buf ∧ s.pos ≤ r.s.pos) ∧
    (∀ nm s r, parseCasingFunc fuel nm s = some r → r.s.buf = s.buf ∧ s.pos ≤ r.s.pos) ∧
    (∀ s r, parseLenFunc fuel s = some r → r.s.buf = s.buf ∧ s.pos ≤ r.s.pos) := by
  intro fuel
  induction fuel with
  | zero =>
    exact ⟨fun s r h => Option.noConfusion h, fun s r h => Option.noConfusion h,
      fun a m s r h => Option.noConfusion h, fun nm s r h => Option.noConfusion h,
      fun nm s r h => Option.noConfusion h, fun nm a s r h => Option.noConfusion h,
      fun nm s r h => Option.noConfusion h, fun nm s r h => Option.noConfusion h,
      fun fn nm args s r h => Option.noConfusion h, fun nm s r h => Option.noConfusion h,
      fun s r h => Option.noConfusion h⟩
  | succ n ih =>
    obtain ⟨ihAny, ihFunc, ihParam, ihDos, ihSub, ihRem, ihRep, ihDflt, ihLoop,
      ihCas, ihLen⟩ := ih
    constructor
    · -- parseAny
      intro s r h
      simp only [parseAny_succ] at h
      split at h
      · rename_i s1 heq
        have hb1 := scan_eq_buf heq
        have hp1 := scan_eq_pos_ge heq
        dsimp only at hb1 hp1
        split at h
        · exact Option.noConfusion h
        · rename_i r1 hp
          have hm := ihAny s1 r1 hp
          split at h
          · injection h with h; subst h
            exact ⟨hm.1.trans hb1, by dsimp only; omega⟩
          · split at h
            · injection h with h; subst h
              exact ⟨hm.1.trans hb1, by dsimp only; omega⟩
            · injection h with h; subst h
              exact ⟨hm.1.trans hb1, by dsimp only; omega⟩
      · rename_i s1 heq
        have hb1 := scan_eq_buf heq
        have hp1 := scan_eq_pos_ge heq
        dsimp only at hb1 hp1
        injection h with h; subst h
        exact ⟨hb1, by dsimp only; omega⟩
      · rename_i s1 heq
        have hb1 := scan_eq_buf heq
        have hp1 := scan_eq_pos_ge heq
        dsimp only at hb1 hp1
        split at h
        · exact Option.noConfusion h
        · rename_i rf hpf
          have hmf := ihFunc s1 rf hpf
          split at h
          · injection h with h; subst h
            exact ⟨hmf.1.trans hb1, by dsimp only; omega⟩
          · split at h
            · exact Option.noConfusion h
            · rename_i r1 hp
              have hm := ihAny rf.s r1 hp
              split at h
              · injection h with h; subst h
                exact ⟨hm.1.trans (hmf.1.trans hb1), by dsimp only; omega⟩
              · split at h
                · injection h with h; subst h
                  exact ⟨hm.1.trans (hmf.1.trans hb1), by dsimp only; omega⟩
                · injection h with h; subst h
                  exact ⟨hm.1.trans (hmf.1.trans hb1), by dsimp only; omega⟩
      · rename_i heq
        have hb1 := scan_eq_buf heq
        have hp1 := scan_eq_pos_ge heq
        dsimp only at hb1 hp1
        injection h with h; subst h
        exact ⟨hb1, by dsimp only; omega⟩
    constructor
    · -- parseFunc
      intro s r h
      simp only [parseFunc_succ] at h
      split at h
      · exact ihLen { s with escapeChars := escapeAll } r h
      · split at h
        · rename_i s1 heq
          have hb1 := scan_eq_buf heq
          have hp1 := scan_eq_pos_ge heq
          dsimp only at hb1 hp1
          split at h
          · have hm := ihDos _ s1 r h
            exact ⟨hm.1.trans hb1, by omega⟩
          · split at h
            · have hm := ihDflt _ s1 r h
              exact ⟨hm.1.trans hb1, by omega⟩
            · split at h
              · have hm := ihCas _ s1 r h
                exact ⟨hm.1.trans hb1, by omega⟩
              · split at h
                · have hm := ihRep _ s1 r h
                  exact ⟨hm.1.trans hb1, by omega⟩
                · split at h
                  · have hm := ihRem _ _ s1 r h
                    exact ⟨hm.1.trans hb1, by omega⟩
                  · split at h
                    · have hm := ihRem _ _ s1 r h
                      exact ⟨hm.1.trans hb1, by omega⟩
                    · split at h
                      · rename_i s4 heq2
                        have hb2 := scan_eq_buf heq2
                        have hp2 := scan_eq_pos_ge heq2
                        dsimp only at hb2 hp2
                        injection h with h; subst h
                        exact ⟨hb2.trans hb1, by dsimp only; omega⟩
                      · rename_i heq2
                        have hb2 := scan_eq_buf heq2
                        have hp2 := scan_eq_pos_ge heq2
                        dsimp only at hb2 hp2
                        injection h with h; subst h
                        exact ⟨hb2.trans hb1, by dsimp only; omega⟩
        · rename_i heq
          have hb1 := scan_eq_buf heq
          have hp1 := scan_eq_pos_ge heq
          dsimp only at hb1 hp1
          injection h with h; subst h
          exact ⟨hb1, by dsimp only; omega⟩
    constructor
    · -- parseParam
      intro a m s r h
      simp only [parseParam_succ] at h
      split at h
      · rename_i s1 heq
        have hb1 := scan_eq_buf heq
        have hp1 := scan_eq_pos_ge heq
        dsimp only at hb1 hp1
        have hm := ihFunc s1 r h
        exact ⟨hm.1.trans hb1, by omega⟩
      · rename_i s1 heq
        have hb1 := scan_eq_buf heq
        have hp1 := scan_eq_pos_ge heq
        dsimp only at hb1 hp1
        injection h with h; subst h
        exact ⟨hb1, by dsimp only; omega⟩
      · rename_i s1 heq
        have hb1 := scan_eq_buf heq
        have hp1 := scan_eq_pos_ge heq
        dsimp only at hb1 hp1
        injection h with h; subst h
        exact ⟨hb1, by dsimp only; omega⟩
      · rename_i heq
        have hb1 := scan_eq_buf heq
        have hp1 := scan_eq_pos_ge heq
        dsimp only at hb1 hp1
        injection h with h; subst h
        exact ⟨hb1, by dsimp only; omega⟩
    constructor
    · -- parseDefaultOrSubstr
      intro nm s r h
      simp only [parseDefaultOrSubstr_succ] at h
      have hu := unread_readChar s
      split at h
      · have hm := ihDflt nm _ r h
        exact ⟨hm.1.trans hu.1, by omega⟩
      · have hm := ihSub nm _ r h
        exact ⟨hm.1.trans hu.1, by omega⟩
    constructor
    · -- parseSubstrFunc
      intro nm s r h
      simp only [parseSubstrFunc_succ] at h
      split at h
      · rename_i s1 heq
        have hb1 := scan_eq_buf heq
        have hp1 := scan_eq_pos_ge heq
        dsimp only at hb1 hp1
        split at h
        · exact Option.noConfusion h
        · rename_i r1 hp
          have hm1 := ihParam _ _ s1 r1 hp
          split at h
          · injection h with h; subst h
            exact ⟨hm1.1.trans hb1, by dsimp only; omega⟩
          · split at h
            · rename_i s3 heq2
              have hb2 := scan_eq_buf heq2
              have hp2 := scan_eq_pos_ge heq2
              dsimp only at hb2 hp2
              injection h with h; subst h
              exact ⟨(hb2.trans hm1.1).trans hb1, by dsimp only; omega⟩
            · rename_i s3 heq2
              have hb2 := scan_eq_buf heq2
              have hp2 := scan_eq_pos_ge heq2
              dsimp only at hb2 hp2
              split at h
              · exact Option.noConfusion h
              · rename_i r2 hp2b
                have hm2 := ihParam _ _ s3 r2 hp2b
                split at h
                · injection h with h; subst h
                  exact ⟨((hm2.1.trans hb2).trans hm1.1).trans hb1, by dsimp only; omega⟩
                · injection h with h; subst h
                  have hcr := consumeRbrack_mono r2.s
                  exact ⟨((hcr.1.trans hm2.1).trans (hb2.trans hm1.1)).trans hb1,
                    by dsimp only; omega⟩
            · rename_i heq2
              have hb2 := scan_eq_buf heq2
              have hp2 := scan_eq_pos_ge heq2
              dsimp only at hb2 hp2
              injection h with h; subst h
              exact ⟨(hb2.trans hm1.1).trans hb1, by dsimp only; omega⟩
      · rename_i heq
        have hb1 := scan_eq_buf heq
        have hp1 := scan_eq_pos_ge heq
        dsimp only at hb1 hp1
        injection h with h; subst h
        exact ⟨hb1, by dsimp only; omega⟩
    constructor
    · -- parseRemoveFunc
      intro nm a s r h
      simp only [parseRemoveFunc_succ] at h
      split at h
      · rename_i s1 heq
        have hb1 := scan_eq_buf heq
        have hp1 := scan_eq_pos_ge heq
        dsimp only at hb1 hp1
        split at h
        · exact Option.noConfusion h
        · rename_i r1 hp
          have hm1 := ihParam _ _ s1 r1 hp
          split at h
          · injection h with h; subst h
            exact ⟨hm1.1.trans hb1, by dsimp only; omega⟩
          · injection h with h; subst h
            have hcr := consumeRbrack_mono r1.s
            exact ⟨(hcr.1.trans hm1.1).trans hb1, by dsimp only; omega⟩
      · rename_i heq
        have hb1 := scan_eq_buf heq
        have hp1 := scan_eq_pos_ge heq
        dsimp only at hb1 hp1
        injection h with h; subst h
        exact ⟨hb1, by dsimp only; omega⟩
    constructor
    · -- parseReplaceFunc
      intro nm s r h
      simp only [parseReplaceFunc_succ] at h
      split at h
      · rename_i s1 heq
        have hb1 := scan_eq_buf heq
        have hp1 := scan_eq_pos_ge heq
        dsimp only at hb1 hp1
        split at h
        · exact Option.noConfusion h
        · rename_i r1 hp
          have hm1 := ihParam _ _ s1 r1 hp
          split at h
          · injection h with h; subst h
            exact ⟨hm1.1.trans hb1, by dsimp only; omega⟩
          · split at h
            · rename_i s3 heq2
              have hb2 := scan_eq_buf heq2
              have hp2 := scan_eq_pos_ge heq2
              dsimp only at hb2 hp2
              split at h
              · injection h with h; subst h
                have hcr := consumeRbrack_mono s3
                exact ⟨((hcr.1.trans hb2).trans hm1.1).trans hb1, by dsimp only; omega⟩
              · split at h
                · exact Option.noConfusion h
                · rename_i r2 hp2b
                  have hm2 := ihParam _ _ s3 r2 hp2b
                  split at h
                  · injection h with h; subst h
                    exact ⟨((hm2.1.trans hb2).trans hm1.1).trans hb1, by dsimp only; omega⟩
                  · injection h with h; subst h
                    have hcr := consumeRbrack_mono r2.s
                    exact ⟨((hcr.1.trans hm2.1).trans (hb2.trans hm1.1)).trans hb1,
                      by dsimp only; omega⟩
            · rename_i heq2
              have hb2 := scan_eq_buf heq2
              have hp2 := scan_eq_pos_ge heq2
              dsimp only at hb2 hp2
              injection h with h; subst h
              exact ⟨(hb2.trans hm1.1).trans hb1, by dsimp only; omega⟩
      · rename_i heq
        have hb1 := scan_eq_buf heq
        have hp1 := scan_eq_pos_ge heq
        dsimp only at hb1 hp1
        injection h with h; subst h
        exact ⟨hb1, by dsimp only; omega⟩
    constructor
    · -- parseDefaultFunc
      intro nm s r h
      simp only [parseDefaultFunc_succ] at h
      split at h
      · rename_i s1 heq
        have hb1 := scan_eq_buf heq
        have hp1 := scan_eq_pos_ge heq
        dsimp only at hb1 hp1
        have hm := ihLoop _ nm [] s1 r h
        exact ⟨hm.1.trans hb1, by omega⟩
      · rename_i heq
        have hb1 := scan_eq_buf heq
        have hp1 := scan_eq_pos_ge heq
        dsimp only at hb1 hp1
        injection h with h; subst h
        exact ⟨hb1, by dsimp only; omega⟩
    constructor
    · -- parseDefaultLoop
      intro fn nm args s r h
      simp only [parseDefaultLoop_succ] at h
      split at h
      · injection h with h; subst h
        have hcr := consumeRbrack_mono s
        exact ⟨hcr.1, by dsimp only; omega⟩
      · split at h
        · exact Option.noConfusion h
        · rename_i r1 hp
          have hm1 := ihParam _ _ s r1 hp
          split at h
          · injection h with h; subst h
            exact ⟨hm1.1, by dsimp only; omega⟩
          · have hm2 := ihLoop fn nm (args ++ [r1.node]) r1.s r h
            exact ⟨hm2.1.trans hm1.1, by omega⟩
    constructor
    · -- parseCasingFunc
      intro nm s r h
      simp only [parseCasingFunc_succ] at h
      split at h
      · rename_i s1 heq
        have hb1 := scan_eq_buf heq
        have hp1 := scan_eq_pos_ge heq
        dsimp only at hb1 hp1
        injection h with h; subst h
        have hcr := consumeRbrack_mono s1
        exact ⟨hcr.1.trans hb1, by dsimp only; omega⟩
      · rename_i heq
        have hb1 := scan_eq_buf heq
        have hp1 := scan_eq_pos_ge heq
        dsimp only at hb1 hp1
        injection h with h; subst h
        exact ⟨hb1, by dsimp only; omega⟩
    · -- parseLenFunc
      intro s r h
      simp only [parseLenFunc_succ] at h
      split at h
      · rename_i s1 heq
        have hb1 := scan_eq_buf heq
        have hp1 := scan_eq_pos_ge heq
        dsimp only at hb1 hp1
        split at h
        · rename_i s3 heq2
          have hb2 := scan_eq_buf heq2
          have hp2 := scan_eq_pos_ge heq2
          dsimp only at hb2 hp2
          injection h with h; subst h
          have hcr := consumeRbrack_mono s3
          exact ⟨(hcr.1.trans hb2).trans hb1, by dsimp only; omega⟩
        · rename_i heq2
          have hb2 := scan_eq_buf heq2
          have hp2 := scan_eq_pos_ge heq2
          dsimp only at hb2 hp2
          injection h with h; subst h
          exact ⟨hb2.trans hb1, by dsimp only; omega⟩
      · rename_i heq
        have hb1 := scan_eq_buf heq
        have hp1 := scan_eq_pos_ge heq
        dsimp only at hb1 hp1
        injection h with h; subst h
        exact ⟨hb1, by dsimp only; omega⟩

/-- A successful parseParam with no error strictly consumes input: the
cursor moves forward and the start position was inside the buffer. -/
lemma parseParam_progress (fuel : Nat) (a : Char → Nat → Bool) (m : Nat)
    (s : Scanner) (r : Res) (h : parseParam fuel a m s = some r)
    (herr : r.err = none) : s.pos < r.s.pos ∧ s.pos < s.buf.length := by
  cases fuel with
  | zero => exact Option.noConfusion h
  | succ n =>
    simp only [parseParam_succ] at h
    split at h
    · rename_i s1 heq
      have hpr := scan_eq_progress heq (Or.inr (Or.inl rfl))
      have hlt := scan_eq_lt_len heq (fun hh => Token.noConfusion hh)
      dsimp only at hpr hlt
      have hm := (parser_mono n).2.1 s1 r h
      exact ⟨by omega, hlt⟩
    · rename_i s1 heq
      have hpr := scan_eq_progress heq (Or.inl rfl)
      have hlt := scan_eq_lt_len heq (fun hh => Token.noConfusion hh)
      dsimp only at hpr hlt
      injection h with h; subst h
      exact ⟨by dsimp only; omega, hlt⟩
    · rename_i s1 heq
      have hpr := scan_eq_progress heq (Or.inr (Or.inr rfl))
      have hlt := scan_eq_lt_len heq (fun hh => Token.noConfusion hh)
      dsimp only at hpr hlt
      injection h with h; subst h
      exact ⟨by dsimp only; omega, hlt⟩
    · injection h with h; subst h
      simp at herr

/-- Totality of every production: with fuel at least linear in the input
left of the cursor — eight units per remaining rune plus a small constant
per production — the parser never runs out of fuel. -/
lemma parser_total : ∀ fuel : Nat,
    (∀ m s, s.buf.length ≤ s.pos + m → 8 * m + 7 ≤ fuel →
      (parseAny fuel s).isSome = true) ∧
    (∀ m s, s.buf.length ≤ s.pos + m → 8 * m + 6 ≤ fuel →
      (parseFunc fuel s).isSome = true) ∧
    (∀ m a md s, s.buf.length ≤ s.pos + m → 8 * m + 2 ≤ fuel →
      (parseParam fuel a md s).isSome = true) ∧
    (∀ m nm s, s.buf.length ≤ s.pos + m → 8 * m + 5 ≤ fuel →
      (parseDefaultOrSubstr fuel nm s).isSome = true) ∧
    (∀ m nm s, s.buf.length ≤ s.pos + m → 8 * m + 4 ≤ fuel →
      (parseSubstrFunc fuel nm s).isSome = true) ∧
    (∀ m nm a s, s.buf.length ≤ s.pos + m → 8 * m + 4 ≤ fuel →
      (parseRemoveFunc fuel nm a s).isSome = true) ∧
    (∀ m nm s, s.buf.length ≤ s.pos + m → 8 * m + 4 ≤ fuel →
      (parseReplaceFunc fuel nm s).isSome = true) ∧
    (∀ m nm s, s.buf.length ≤ s.pos + m → 8 * m + 4 ≤ fuel →
      (parseDefaultFunc fuel nm s).isSome = true) ∧
    (∀ m fn nm args s, s.buf.length ≤ s.pos + m → 8 * m + 3 ≤ fuel →
      (parseDefaultLoop fuel fn nm args s).isSome = true) ∧
    (∀ m nm s, s.buf.length ≤ s.pos + m → 8 * m + 4 ≤ fuel →
      (parseCasingFunc fuel nm s).isSome = true) ∧
    (∀ m s, s.buf.length ≤ s.pos + m → 8 * m + 4 ≤ fuel →
      (parseLenFunc fuel s).isSome = true) := by
  intro fuel
  induction fuel with
  | zero =>
    exact ⟨fun m s h1 h2 => absurd h2 (by omega), fun m s h1 h2 => absurd h2 (by omega),
      fun m a md s h1 h2 => absurd h2 (by omega), fun m nm s h1 h2 => absurd h2 (by omega),
      fun m nm s h1 h2 => absurd h2 (by omega), fun m nm a s h1 h2 => absurd h2 (by omega),
      fun m nm s h1 h2 => absurd h2 (by omega), fun m nm s h1 h2 => absurd h2 (by omega),
      fun m fn nm args s h1 h2 => absurd h2 (by omega),
      fun m nm s h1 h2 => absurd h2 (by omega), fun m s h1 h2 => absurd h2 (by omega)⟩
  | succ n ih =>
    obtain ⟨ihAny, ihFunc, ihParam, ihDos, ihSub, ihRem, ihRep, ihDflt, ihLoop,
      ihCas, ihLen⟩ := ih
    constructor
    · -- parseAny
      intro m s hlen hf
      simp only [parseAny_succ]
      split
      · rename_i s1 heq
        have hlt := scan_eq_lt_len heq (fun hh => Token.noConfusion hh)
        have hpr := scan_eq_progress heq (Or.inl rfl)
        have hb := scan_eq_buf heq
        dsimp only at hlt hpr hb
        have hbl : s1.buf.length = s.buf.length := by rw [hb]
        have htot := ihAny (m - 1) s1 (by omega) (by omega)
        rcases hrec : parseAny n s1 with _ | r
        · rw [hrec] at htot; simp at htot
        · dsimp only
          split
          · rfl
          · split
            · rfl
            · rfl
      · rfl
      · rename_i s1 heq
        have hlt := scan_eq_lt_len heq (fun hh => Token.noConfusion hh)
        have hpr := scan_eq_progress heq (Or.inr (Or.inl rfl))
        have hb := scan_eq_buf heq
        dsimp only at hlt hpr hb
        have hbl : s1.buf.length = s.buf.length := by rw [hb]
        have htotf := ihFunc (m - 1) s1 (by omega) (by omega)
        rcases hrecf : parseFunc n s1 with _ | rf
        · rw [hrecf] at htotf; simp at htotf
        · dsimp only
          split
          · rfl
          · have hm := (parser_mono n).2.1 s1 rf hrecf
            have hbl2 : rf.s.buf.length = s1.buf.length := by rw [hm.1]
            have htota := ihAny (m - 1) rf.s (by omega) (by omega)
            rcases hreca : parseAny n rf.s with _ | r
            · rw [hreca] at htota; simp at htota
            · dsimp only
              split
              · rfl
              · split
                · rfl
                · rfl
      · rfl
    constructor
    · -- parseFunc
      intro m s hlen hf
      simp only [parseFunc_succ]
      split
      · exact ihLen m { s with escapeChars := escapeAll } hlen (by omega)
      · split
        · rename_i s1 heq
          have hpr := scan_eq_pos_ge heq
          have hb := scan_eq_buf heq
          dsimp only at hpr hb
          have hbl : s1.buf.length = s.buf.length := by rw [hb]
          split
          · exact ihDos m _ s1 (by omega) (by omega)
          · split
            · exact ihDflt m _ s1 (by omega) (by omega)
            · split
              · exact ihCas m _ s1 (by omega) (by omega)
              · split
                · exact ihRep m _ s1 (by omega) (by omega)
                · split
                  · exact ihRem m _ _ s1 (by omega) (by omega)
                  · split
                    · exact ihRem m _ _ s1 (by omega) (by omega)
                    · split
                      · rfl
                      · rfl
        · rfl
    constructor
    · -- parseParam
      intro m a md s hlen hf
      simp only [parseParam_succ]
      split
      · rename_i s1 heq
        have hlt := scan_eq_lt_len heq (fun hh => Token.noConfusion hh)
        have hpr := scan_eq_progress heq (Or.inr (Or.inl rfl))
        have hb := scan_eq_buf heq
        dsimp only at hlt hpr hb
        have hbl : s1.buf.length = s.buf.length := by rw [hb]
        exact ihFunc (m - 1) s1 (by omega) (by omega)
      · rfl
      · rfl
      · rfl
    constructor
    · -- parseDefaultOrSubstr
      intro m nm s hlen hf
      simp only [parseDefaultOrSubstr_succ]
      have hu := unread_readChar s
      have hbl : (unread (readChar s).2).buf.length = s.buf.length := by rw [hu.1]
      split
      · exact ihDflt m nm _ (by omega) (by omega)
      · exact ihSub m nm _ (by omega) (by omega)
    constructor
    · -- parseSubstrFunc
      intro m nm s hlen hf
      simp only [parseSubstrFunc_succ]
      split
      · rename_i s1 heq
        have hpr := scan_eq_pos_ge heq
        have hb := scan_eq_buf heq
        dsimp only at hpr hb
        have hbl : s1.buf.length = s.buf.length := by rw [hb]
        have htot1 := ihParam m rejectColonClose scanIdent s1 (by omega) (by omega)
        rcases hrec1 : parseParam n rejectColonClose scanIdent s1 with _ | r1
        · rw [hrec1] at htot1; simp at htot1
        · dsimp only
          split
          · rfl
          · have hm1 := (parser_mono n).2.2.1 rejectColonClose scanIdent s1 r1 hrec1
            have hbl2 : r1.s.buf.length = s1.buf.length := by rw [hm1.1]
            split
            · rfl
            · rename_i s3 heq2
              have hpr2 := scan_eq_pos_ge heq2
              have hb2 := scan_eq_buf heq2
              dsimp only at hpr2 hb2
              have hbl3 : s3.buf.length = r1.s.buf.length := by rw [hb2]
              have htot2 := ihParam m acceptNotClosing scanIdent s3 (by omega) (by omega)
              rcases hrec2 : parseParam n acceptNotClosing scanIdent s3 with _ | r2
              · rw [hrec2] at htot2; simp at htot2
              · dsimp only
                split
                · rfl
                · rfl
            · rfl
      · rfl
    constructor
    · -- parseRemoveFunc
      intro m nm a s hlen hf
      simp only [parseRemoveFunc_succ]
      split
      · rename_i s1 heq
        have hpr := scan_eq_pos_ge heq
        have hb := scan_eq_buf heq
        dsimp only at hpr hb
        have hbl : s1.buf.length = s.buf.length := by rw [hb]
        have htot1 := ihParam m acceptNotClosing scanIdent s1 (by omega) (by omega)
        rcases hrec1 : parseParam n acceptNotClosing scanIdent s1 with _ | r1
        · rw [hrec1] at htot1; simp at htot1
        · dsimp only
          split
          · rfl
          · rfl
      · rfl
    constructor
    · -- parseReplaceFunc
      intro m nm s hlen hf
      simp only [parseReplaceFunc_succ]
      split
      · rename_i s1 heq
        have hpr := scan_eq_pos_ge heq
        have hb := scan_eq_buf heq
        dsimp only at hpr hb
        have hbl : s1.buf.length = s.buf.length := by rw [hb]
        have htot1 := ihParam m acceptNotSlash (scanIdent ||| scanEscape) s1
          (by omega) (by omega)
        rcases hrec1 : parseParam n acceptNotSlash (scanIdent ||| scanEscape) s1 with _ | r1
        · rw [hrec1] at htot1; simp at htot1
        · dsimp only
          split
          · rfl
          · have hm1 := (parser_mono n).2.2.1 acceptNotSlash (scanIdent ||| scanEscape)
              s1 r1 hrec1
            have hbl2 : r1.s.buf.length = s1.buf.length := by rw [hm1.1]
            split
            · rename_i s3 heq2
              have hpr2 := scan_eq_pos_ge heq2
              have hb2 := scan_eq_buf heq2
              dsimp only at hpr2 hb2
              have hbl3 : s3.buf.length = r1.s.buf.length := by rw [hb2]
              split
              · rfl
              · have htot2 := ihParam m acceptNotClosing (scanIdent ||| scanEscape) s3
                  (by omega) (by omega)
                rcases hrec2 : parseParam n acceptNotClosing (scanIdent ||| scanEscape) s3
                  with _ | r2
                · rw [hrec2] at htot2; simp at htot2
                · dsimp only
                  split
                  · rfl
                  · rfl
            · rfl
      · rfl
    constructor
    · -- parseDefaultFunc
      intro m nm s hlen hf
      simp only [parseDefaultFunc_succ]
      split
      · rename_i s1 heq
        have hpr := scan_eq_pos_ge heq
        have hb := scan_eq_buf heq
        dsimp only at hpr hb
        have hbl : s1.buf.length = s.buf.length := by rw [hb]
        exact ihLoop m _ nm [] s1 (by omega) (by omega)
      · rfl
    constructor
    · -- parseDefaultLoop
      intro m fn nm args s hlen hf
      simp only [parseDefaultLoop_succ]
      split
      · rfl
      · have htotp := ihParam m acceptNotClosing scanIdent s hlen (by omega)
        rcases hrecp : parseParam n acceptNotClosing scanIdent s with _ | r
        · rw [hrecp] at htotp; simp at htotp
        · dsimp only
          split
          · rfl
          · rename_i herr
            have herr2 : r.err = none := by
              cases hre : r.err
              · rfl
              · rw [hre] at herr; simp at herr
            have hprog := parseParam_progress n acceptNotClosing scanIdent s r hrecp herr2
            have hm := (parser_mono n).2.2.1 acceptNotClosing scanIdent s r hrecp
            have hbl : r.s.buf.length = s.buf.length := by rw [hm.1]
            exact ihLoop (m - 1) fn nm (args ++ [r.node]) r.s (by omega) (by omega)
    constructor
    · -- parseCasingFunc
      intro m nm s hlen hf
      simp only [parseCasingFunc_succ]
      split
      · rfl
      · rfl
    · -- parseLenFunc
      intro m s hlen hf
      simp only [parseLenFunc_succ]
      split
      · split
        · rfl
        · rfl
      · rfl

/-- C10: Parse terminates on every finite input string.  The mutual
recursion of the productions, including the unbounded argument loop of
parseDefaultFunc, needs a recursion depth at most linear in the input
length — eight steps per rune plus a constant — because every cycle
through the productions strictly consumes input; so the fuel-indexed
embedding, whose `none` marks fuel exhaustion, always yields a result at
that budget and parsing cannot run forever. -/
theorem parse_terminates (buf : String) :
    (Parse (8 * buf.length + 8) buf).isSome = true := by
  have h1 : (initScanner buf).buf.length ≤ (initScanner buf).pos + buf.length := by
    show buf.data.length ≤ 0 + buf.data.length
    omega
  have htot := (parser_total (8 * buf.length + 8)).1 buf.length (initScanner buf) h1
    (by omega)
  obtain ⟨r, hr⟩ := Option.isSome_iff_exists.mp htot
  unfold Parse
  rw [hr]
  rfl

/-- The opener test holds for any list extended by one rune in front. -/
lemma hasSub_cons (a : Char) : ∀ (l : List Char), hasSub l = true → hasSub (a :: l) = true
| [], h => Bool.noConfusion h
| [_], h => Bool.noConfusion h
| b :: c :: rest, h => by
  show (((a == '$') && (b == '\x7b')) || hasSub (b :: c :: rest)) = true
  rw [h, Bool.or_true]

/-- The opener test holds for any list extended in front. -/
lemma hasSub_append (xs l : List Char) (h : hasSub l = true) : hasSub (xs ++ l) = true := by
  induction xs with
  | nil => exact h
  | cons a t ih => exact hasSub_cons a (t ++ l) ih

/-- The opener test transfers from a deeper suffix to a shallower one. -/
lemma hasSub_drop (l : List Char) (p q : Nat) (hpq : p ≤ q)
    (h : hasSub (l.drop q) = true) : hasSub (l.drop p) = true := by
  obtain ⟨xs, hxs⟩ := List.drop_suffix (q - p) (l.drop p)
  have hd : (l.drop p).drop (q - p) = l.drop q := by
    rw [List.drop_drop]
    congr 1
    omega
  rw [hd] at hxs
  rw [← hxs]
  exact hasSub_append xs _ h

/-- A scan that returns the opener token saw the two opener runes at the
cursor, so the unconsumed input contains the substitution opener. -/
lemma scan_lbrack_hasSub {s s1 : Scanner} (h : scan s = (Token.tokenLbrack, s1)) :
    hasSub (s.buf.drop s.pos) = true := by
  rcases hc : s.buf[s.pos]? with _ | c
  · simp only [scan] at h
    rw [readChar_eq_none { s with start := s.pos } hc] at h
    injection h with h1 h2
    exact Token.noConfusion h1
  · simp only [scan] at h
    rw [readChar_eq_some { s with start := s.pos } c hc] at h
    dsimp only at h
    split at h
    · rename_i hcond
      simp only [Bool.and_eq_true, bne_iff_ne, beq_iff_eq] at hcond
      obtain ⟨⟨hmode, hdollar⟩, hbrace⟩ := hcond
      have hbrace2 : s.buf[s.pos + 1]? = some '\x7b' := hbrace
      subst hdollar
      have hlt : s.pos < s.buf.length := by
        by_contra hcon
        rw [List.getElem?_eq_none (by omega)] at hc
        exact Option.noConfusion hc
      have hlt2 : s.pos + 1 < s.buf.length := by
        by_contra hcon
        rw [List.getElem?_eq_none (by omega)] at hbrace2
        exact Option.noConfusion hbrace2
      have hd1 := List.drop_eq_getElem_cons hlt
      have hd2 := List.drop_eq_getElem_cons hlt2
      have he1 : s.buf[s.pos] = '$' := by
        have hg := List.getElem?_eq_getElem hlt
        rw [hg] at hc
        exact Option.some.inj hc
      have he2 : s.buf[s.pos + 1] = '\x7b' := by
        have hg := List.getElem?_eq_getElem hlt2
        rw [hg] at hbrace2
        exact Option.some.inj hbrace2
      rw [hd1, hd2, he1, he2]
      simp [hasSub]
    · split at h
      · injection h with h1 h2
        exact Token.noConfusion h1
      · split at h
        · split at h
          · injection h with h1 h2
            exact Token.noConfusion h1
          · split at h
            · injection h with h1 h2
              exact Token.noConfusion h1
            · injection h with h1 h2
              exact Token.noConfusion h1
        · injection h with h1 h2
          exact Token.noConfusion h1

/-- consumeRbrack yields either no error or ErrBadSubstitution. -/
lemma consumeRbrack_err (s : Scanner) :
    (consumeRbrack s).1 = none ∨ (consumeRbrack s).1 = some ErrBadSubstitution := by
  simp only [consumeRbrack]
  rcases hs : scan { s with mode := scanRbrack } with ⟨tok, s2⟩
  cases tok
  · exact Or.inr rfl
  · exact Or.inr rfl
  · exact Or.inl rfl
  · exact Or.inr rfl
  · exact Or.inr rfl

/-- consumeRbrack never reports the missing-closing-brace error: that kind
belongs to the plain form alone. -/
lemma consumeRbrack_not_missing (s : Scanner) :
    (consumeRbrack s).1 ≠ some ErrMissingClosingBrace := by
  rcases consumeRbrack_err s with hc | hc
  · rw [hc]
    exact fun hx => Option.noConfusion hx
  · rw [hc]
    intro hx
    injection hx with hx
    exact absurd hx (by decide)

/-- Provenance of ErrMissingClosingBrace inside operator forms: none of
the operator productions raises it itself — parseParam reports it only
after scanning a nested opener, the substring, remove, replace and default
forms only by propagating such a nested failure, and the casing and length
forms never — so an operator form can report it only when the substitution
opener still occurs in its unconsumed input. -/
lemma operator_missing_needs_opener : ∀ fuel : Nat,
    (∀ a md s r, parseParam fuel a md s = some r →
      r.err = some ErrMissingClosingBrace → hasSub (s.buf.drop s.pos) = true) ∧
    (∀ nm s r, parseSubstrFunc fuel nm s = some r →
      r.err = some ErrMissingClosingBrace → hasSub (s.buf.drop s.pos) = true) ∧
    (∀ nm a s r, parseRemoveFunc fuel nm a s = some r →
      r.err = some ErrMissingClosingBrace → hasSub (s.buf.drop s.pos) = true) ∧
    (∀ nm s r, parseReplaceFunc fuel nm s = some r →
      r.err = some ErrMissingClosingBrace → hasSub (s.buf.drop s.pos) = true) ∧
    (∀ nm s r, parseDefaultFunc fuel nm s = some r →
      r.err = some ErrMissingClosingBrace → hasSub (s.buf.drop s.pos) = true) ∧
    (∀ fn nm args s r, parseDefaultLoop fuel fn nm args s = some r →
      r.err = some ErrMissingClosingBrace → hasSub (s.buf.drop s.pos) = true) ∧
    (∀ nm s r, parseCasingFunc fuel nm s = some r →
      r.err ≠ some ErrMissingClosingBrace) ∧
    (∀ s r, parseLenFunc fuel s = some r → r.err ≠ some ErrMissingClosingBrace) := by
  intro fuel
  induction fuel with
  | zero =>
    exact ⟨fun a md s r h => Option.noConfusion h, fun nm s r h => Option.noConfusion h,
      fun nm a s r h => Option.noConfusion h, fun nm s r h => Option.noConfusion h,
      fun nm s r h => Option.noConfusion h, fun fn nm args s r h => Option.noConfusion h,
      fun nm s r h => Option.noConfusion h, fun s r h => Option.noConfusion h⟩
  | succ n ih =>
    obtain ⟨ihParam, ihSub, ihRem, ihRep, ihDflt, ihLoop, ihCas, ihLen⟩ := ih
    constructor
    · -- parseParam
      intro a md s r h herr
      simp only [parseParam_succ] at h
      split at h
      · rename_i s1 heq
        exact @scan_lbrack_hasSub { s with accept := a, mode := md ||| scanLbrack } s1 heq
      · rename_i s1 heq
        injection h with h; subst h
        have herr2 : (none : Option Err) = some ErrMissingClosingBrace := herr
        exact Option.noConfusion herr2
      · rename_i s1 heq
        injection h with h; subst h
        have herr2 : (none : Option Err) = some ErrMissingClosingBrace := herr
        exact Option.noConfusion herr2
      · injection h with h; subst h
        have herr2 : some ErrParseFuncSubstitution = some ErrMissingClosingBrace := herr
        injection herr2 with herr2
        exact absurd herr2 (by decide)
    constructor
    · -- parseSubstrFunc
      intro nm s r h herr
      simp only [parseSubstrFunc_succ] at h
      split at h
      · rename_i s1 heq
        have hb1 := scan_eq_buf heq
        have hp1 := scan_eq_pos_ge heq
        dsimp only at hb1 hp1
        split at h
        · exact Option.noConfusion h
        · rename_i r1 hp
          split at h
          · injection h with h; subst h
            have hh := ihParam _ _ s1 r1 hp herr
            rw [hb1] at hh
            exact hasSub_drop s.buf s.pos s1.pos hp1 hh
          · split at h
            · injection h with h; subst h
              have herr2 : (none : Option Err) = some ErrMissingClosingBrace := herr
              exact Option.noConfusion herr2
            · rename_i s3 heq2
              have hb2 := scan_eq_buf heq2
              have hp2 := scan_eq_pos_ge heq2
              dsimp only at hb2 hp2
              have hm1 := (parser_mono n).2.2.1 _ _ s1 r1 hp
              split at h
              · exact Option.noConfusion h
              · rename_i r2 hp2b
                split at h
                · injection h with h; subst h
                  have hh := ihParam _ _ s3 r2 hp2b herr
                  rw [hb2, hm1.1, hb1] at hh
                  exact hasSub_drop s.buf s.pos s3.pos (by omega) hh
                · injection h with h; subst h
                  exact absurd herr (consumeRbrack_not_missing r2.s)
            · injection h with h; subst h
              have herr2 : some ErrBadSubstitution = some ErrMissingClosingBrace := herr
              injection herr2 with herr2
              exact absurd herr2 (by decide)
      · injection h with h; subst h
        have herr2 : some ErrBadSubstitution = some ErrMissingClosingBrace := herr
        injection herr2 with herr2
        exact absurd herr2 (by decide)
    constructor
    · -- parseRemoveFunc
      intro nm a s r h herr
      simp only [parseRemoveFunc_succ] at h
      split at h
      · rename_i s1 heq
        have hb1 := scan_eq_buf heq
        have hp1 := scan_eq_pos_ge heq
        dsimp only at hb1 hp1
        split at h
        · exact Option.noConfusion h
        · rename_i r1 hp
          split at h
          · injection h with h; subst h
            have hh := ihParam _ _ s1 r1 hp herr
            rw [hb1] at hh
            exact hasSub_drop s.buf s.pos s1.pos hp1 hh
          · injection h with h; subst h
            exact absurd herr (consumeRbrack_not_missing r1.s)
      · injection h with h; subst h
        have herr2 : some ErrBadSubstitution = some ErrMissingClosingBrace := herr
        injection herr2 with herr2
        exact absurd herr2 (by decide)
    constructor
    · -- parseReplaceFunc
      intro nm s r h herr
      simp only [parseReplaceFunc_succ] at h
      split at h
      · rename_i s1 heq
        have hb1 := scan_eq_buf heq
        have hp1 := scan_eq_pos_ge heq
        dsimp only at hb1 hp1
        split at h
        · exact Option.noConfusion h
        · rename_i r1 hp
          split at h
          · injection h with h; subst h
            have hh := ihParam _ _ s1 r1 hp herr
            rw [hb1] at hh
            exact hasSub_drop s.buf s.pos s1.pos hp1 hh
          · split at h
            · rename_i s3 heq2
              have hb2 := scan_eq_buf heq2
              have hp2 := scan_eq_pos_ge heq2
              dsimp only at hb2 hp2
              have hm1 := (parser_mono n).2.2.1 _ _ s1 r1 hp
              split at h
              · injection h with h; subst h
                exact absurd herr (consumeRbrack_not_missing s3)
              · split at h
                · exact Option.noConfusion h
                · rename_i r2 hp2b
                  split at h
                  · injection h with h; subst h
                    have hh := ihParam _ _ s3 r2 hp2b herr
                    rw [hb2, hm1.1, hb1] at hh
                    exact hasSub_drop s.buf s.pos s3.pos (by omega) hh
                  · injection h with h; subst h
                    exact absurd herr (consumeRbrack_not_missing r2.s)
            · injection h with h; subst h
              have herr2 : some ErrBadSubstitution = some ErrMissingClosingBrace := herr
              injection herr2 with herr2
              exact absurd herr2 (by decide)
      · injection h with h; subst h
        have herr2 : some ErrBadSubstitution = some ErrMissingClosingBrace := herr
        injection herr2 with herr2
        exact absurd herr2 (by decide)
    constructor
    · -- parseDefaultFunc
      intro nm s r h herr
      simp only [parseDefaultFunc_succ] at h
      split at h
      · rename_i s1 heq
        have hb1 := scan_eq_buf heq
        have hp1 := scan_eq_pos_ge heq
        dsimp only at hb1 hp1
        have hh := ihLoop _ nm [] s1 r h herr
        rw [hb1] at hh
        exact hasSub_drop s.buf s.pos s1.pos hp1 hh
      · injection h with h; subst h
        have herr2 : some ErrParseDefaultFunction = some ErrMissingClosingBrace := herr
        injection herr2 with herr2
        exact absurd herr2 (by decide)
    constructor
    · -- parseDefaultLoop
      intro fn nm args s r h herr
      simp only [parseDefaultLoop_succ] at h
      split at h
      · injection h with h; subst h
        exact absurd herr (consumeRbrack_not_missing s)
      · split at h
        · exact Option.noConfusion h
        · rename_i r1 hp
          split at h
          · injection h with h; subst h
            exact ihParam _ _ s r1 hp herr
          · have hm1 := (parser_mono n).2.2.1 _ _ s r1 hp
            have hh := ihLoop fn nm (args ++ [r1.node]) r1.s r h herr
            rw [hm1.1] at hh
            exact hasSub_drop s.buf s.pos r1.s.pos hm1.2 hh
    constructor
    · -- parseCasingFunc
      intro nm s r h
      simp only [parseCasingFunc_succ] at h
      split at h
      · rename_i s1 heq
        injection h with h; subst h
        exact consumeRbrack_not_missing s1
      · injection h with h; subst h
        intro hx
        have hx2 : some ErrBadSubstitution = some ErrMissingClosingBrace := hx
        injection hx2 with hx2
        exact absurd hx2 (by decide)
    · -- parseLenFunc
      intro s r h
      simp only [parseLenFunc_succ] at h
      split at h
      · rename_i s1 heq
        split at h
        · rename_i s3 heq2
          injection h with h; subst h
          exact consumeRbrack_not_missing s3
        · injection h with h; subst h
          intro hx
          have hx2 : some ErrBadSubstitution = some ErrMissingClosingBrace := hx
          injection hx2 with hx2
          exact absurd hx2 (by decide)
      · injection h with h; subst h
        intro hx
        have hx2 : some ErrBadSubstitution = some ErrMissingClosingBrace := hx
        injection hx2 with hx2
        exact absurd hx2 (by decide)

/-- C2 (amended): the error kind for an unclosed substitution depends on
the form.  The plain form reports ErrMissingClosingBrace; an unclosed
operator form — substring, remove, replace, default — reports
ErrMissingClosingBrace only when the substitution opener still occurs in
its unconsumed input, so that a nested plain form raised it, as in the
default form over an unclosed nested substitution; the casing and length
forms never report it; and representative unclosed templates of every
family evaluate to ErrBadSubstitution or ErrParseFuncSubstitution
instead. -/
theorem unclosed_error_kind_by_form :
    (∀ fuel nm s r, parseSubstrFunc fuel nm s = some r →
      r.err = some ErrMissingClosingBrace → hasSub (s.buf.drop s.pos) = true) ∧
    (∀ fuel nm a s r, parseRemoveFunc fuel nm a s = some r →
      r.err = some ErrMissingClosingBrace → hasSub (s.buf.drop s.pos) = true) ∧
    (∀ fuel nm s r, parseReplaceFunc fuel nm s = some r →
      r.err = some ErrMissingClosingBrace → hasSub (s.buf.drop s.pos) = true) ∧
    (∀ fuel nm s r, parseDefaultFunc fuel nm s = some r →
      r.err = some ErrMissingClosingBrace → hasSub (s.buf.drop s.pos) = true) ∧
    (∀ fuel nm s r, parseCasingFunc fuel nm s = some r →
      r.err ≠ some ErrMissingClosingBrace) ∧
    (∀ fuel s r, parseLenFunc fuel s = some r → r.err ≠ some ErrMissingClosingBrace) ∧
    ParseErr 20 "$\x7bVAR" = some (some ErrMissingClosingBrace) ∧
    ParseErr 20 "$\x7b#VAR" = some (some ErrBadSubstitution) ∧
    ParseErr 20 "$\x7bVAR#p" = some (some ErrBadSubstitution) ∧
    ParseErr 20 "$\x7bVAR%p" = some (some ErrBadSubstitution) ∧
    ParseErr 20 "$\x7bVAR/a/b" = some (some ErrBadSubstitution) ∧
    ParseErr 20 "$\x7bVAR,," = some (some ErrBadSubstitution) ∧
    ParseErr 20 "$\x7bVAR:1" = some (some ErrBadSubstitution) ∧
    ParseErr 20 "$\x7bVAR:1:2" = some (some ErrBadSubstitution) ∧
    ParseErr 20 "$\x7bVAR:-d" = some (some ErrParseFuncSubstitution) ∧
    ParseErr 20 "$\x7bVAR=d" = some (some ErrParseFuncSubstitution) ∧
    ParseErr 40 "$\x7bVAR:-$\x7bX" = some (some ErrMissingClosingBrace) :=
  ⟨fun fuel nm s r => (operator_missing_needs_opener fuel).2.1 nm s r,
   fun fuel nm a s r => (operator_missing_needs_opener fuel).2.2.1 nm a s r,
   fun fuel nm s r => (operator_missing_needs_opener fuel).2.2.2.1 nm s r,
   fun fuel nm s r => (operator_missing_needs_opener fuel).2.2.2.2.1 nm s r,
   fun fuel nm s r => (operator_missing_needs_opener fuel).2.2.2.2.2.2.1 nm s r,
   fun fuel s r => (operator_missing_needs_opener fuel).2.2.2.2.2.2.2 s r,
   rfl, rfl, rfl, rfl, rfl, rfl, rfl, rfl, rfl, rfl, rfl⟩

/-- Witness for C2's amended theorem: the default-form clause applied at
an unclosed nested substitution, whose unconsumed input indeed contains
the opener. -/
theorem unclosed_error_kind_by_form_witness :
    hasSub ((initScanner ":-$\x7bX").buf.drop (initScanner ":-$\x7bX").pos) = true :=
  unclosed_error_kind_by_form.2.2.2.1 30 "VAR" (initScanner ":-$\x7bX") missingWitnessRes
    (Option.some_get (by rfl)).symm (by rfl)

end envsubst
